import Mathlib

/-
Verification of the pr-sheriff core subsystems: the caching GitHub client
(src/github/file_cache.mjs, src/github/github_fetch.mjs) and the bounded
reference-graph builder (src/graph/reference_extraction.mjs,
src/graph/reference_graph_builder.mjs).

The JavaScript source is shallowly embedded: JSON values become the `Json`
inductive, dynamic payloads become typed records mirroring exactly the fields
the code reads, stateful code threads explicit state records, and fallible
code returns `Except String`.
-/

namespace PrSheriff

/-- Model of a JavaScript JSON value. Numbers are modelled as integers: every
number appearing in the embedded code paths (issue numbers, HTTP statuses,
epoch seconds) is integral and below 2^53, where IEEE doubles are exact. -/
inductive Json where
  | null : Json
  | bool (b : Bool) : Json
  | num (n : Int) : Json
  | str (s : String) : Json
  | arr (elements : List Json) : Json
  | obj (fields : List (String × Json)) : Json
deriving Repr

/-- JavaScript truthiness of a JSON value: null, false, 0 and the empty
string are falsy; every array and object is truthy. -/
def Json.truthy : Json → Bool
  | Json.null => false
  | Json.bool b => b
  | Json.num n => decide (n ≠ 0)
  | Json.str s => decide (s ≠ "")
  | Json.arr _ => true
  | Json.obj _ => true

/-- Property read on a JavaScript object: the value of the first binding of
the key (JS objects cannot bind a key twice, so embedded objects are used
with duplicate-free key lists). -/
def lookupField (k : String) : List (String × Json) → Option Json
  | [] => none
  | (k2, v) :: rest => if k2 = k then some v else lookupField k rest

/-- Lower-case hex digit, as produced by JSON.stringify unicode escapes. -/
def hexDigit (n : Nat) : Char :=
  if n < 10 then Char.ofNat (48 + n) else Char.ofNat (87 + n)

/-- Escape one character the way JSON.stringify quotes string contents. -/
def escapeJsonChar (c : Char) : String :=
  if c = '"' then "\\\""
  else if c = '\\' then "\\\\"
  else if c = '\x08' then "\\b"
  else if c = '\x0c' then "\\f"
  else if c = '\n' then "\\n"
  else if c = '\r' then "\\r"
  else if c = '\t' then "\\t"
  else if c.toNat < 32 then
    "\\u00" ++ String.singleton (hexDigit (c.toNat / 16)) ++
      String.singleton (hexDigit (c.toNat % 16))
  else String.singleton c

/-- JSON.stringify quoting of a string value. -/
def quoteJson (s : String) : String :=
  "\"" ++ String.join (s.data.map escapeJsonChar) ++ "\""

/-- Comma-join of already serialized members. -/
def joinComma (parts : List String) : String :=
  String.intercalate "," parts

/-- First-binding lookup in a list of already serialized fields. -/
def lookupStr (k : String) : List (String × String) → Option String
  | [] => none
  | (k2, v) :: rest => if k2 = k then some v else lookupStr k rest

/-- Assembly of a serialized object from its serialized fields: the
ECMAScript SerializeJSONObject walk over the property list `K`. -/
def objAssemble (K : List String) (sfs : List (String × String)) : String :=
  "\x7b" ++ joinComma (K.filterMap (fun k =>
    (lookupStr k sfs).map (fun sv => quoteJson k ++ ":" ++ sv))) ++ "\x7d"

mutual

/-- Model of `JSON.stringify(value, propertyList)` with an array replacer,
following the ECMAScript SerializeJSONObject semantics: at EVERY object in
the tree, exactly the keys occurring in `K` are serialized, in the order of
`K`; array elements are all serialized. The embedding first serializes each
field and then selects by `K`, which yields the same string because
per-field serialization does not depend on the sibling fields. -/
def stringifyWithList (K : List String) : Json → String
  | Json.null => "null"
  | Json.bool b => if b then "true" else "false"
  | Json.num n => toString n
  | Json.str s => quoteJson s
  | Json.arr xs => "[" ++ joinComma (stringifyWithListArr K xs) ++ "]"
  | Json.obj fs => objAssemble K (stringifyWithListFields K fs)

/-- Serialization of the elements of a JSON array under a property list. -/
def stringifyWithListArr (K : List String) : List Json → List String
  | [] => []
  | x :: xs => stringifyWithList K x :: stringifyWithListArr K xs

/-- Serialization of every field value of a JSON object, keeping keys. -/
def stringifyWithListFields (K : List String) :
    List (String × Json) → List (String × String)
  | [] => []
  | (k, v) :: fs => (k, stringifyWithList K v) :: stringifyWithListFields K fs

end

mutual

/-- Model of plain `JSON.stringify(value)` (no replacer): object fields are
serialized in insertion order. Used to witness that two values differ. -/
def stringifyPlain : Json → String
  | Json.null => "null"
  | Json.bool b => if b then "true" else "false"
  | Json.num n => toString n
  | Json.str s => quoteJson s
  | Json.arr xs => "[" ++ joinComma (stringifyPlainArr xs) ++ "]"
  | Json.obj fs => "\x7b" ++ joinComma (stringifyPlainFields fs) ++ "\x7d"

/-- Plain serialization of the elements of a JSON array. -/
def stringifyPlainArr : List Json → List String
  | [] => []
  | x :: xs => stringifyPlain x :: stringifyPlainArr xs

/-- Plain serialization of the fields of a JSON object. -/
def stringifyPlainFields : List (String × Json) → List String
  | [] => []
  | (k, v) :: fs => (quoteJson k ++ ":" ++ stringifyPlain v) :: stringifyPlainFields fs

end

/-- Object.keys of a JSON value: the own enumerable keys, in insertion
order, for an object; the empty list for the primitives this code applies
it to. -/
def jsonKeys : Json → List String
  | Json.obj fs => fs.map Prod.fst
  | _ => []

/-- Lexicographic comparison of character sequences by code point,
modelling the default JavaScript string comparison on the ASCII keys the
code sorts. -/
def charsLt : List Char → List Char → Bool
  | [], [] => false
  | [], _ :: _ => true
  | _ :: _, [] => false
  | a :: as, b :: bs =>
      if a.toNat < b.toNat then true
      else if b.toNat < a.toNat then false
      else charsLt as bs

/-- Insertion of a string into an ascending list of strings. -/
def insertString (x : String) : List String → List String
  | [] => [x]
  | y :: ys => if charsLt y.data x.data then y :: insertString x ys else x :: y :: ys

/-- Ascending sort of strings, modelling Array.prototype.sort with the
default (lexicographic) comparator on the ASCII keys used by the code. -/
def sortStrings : List String → List String
  | [] => []
  | x :: xs => insertString x (sortStrings xs)

/-- Model of `cacheKey` from src/github/file_cache.mjs:
`sha256Hex(JSON.stringify(parts, Object.keys(parts).sort()))`.
The key is modelled as the serialized string itself: sha256Hex is a function
of it, so equal serializations always give equal cache keys (which is the
direction every theorem below uses). -/
def cacheKey (parts : Json) : String :=
  stringifyWithList (sortStrings (jsonKeys parts)) parts

/-- The cache-key parts built by searchMergedPRs for one search query. -/
def searchParts (q : String) : Json :=
  Json.obj [("kind", Json.str "rest-search"),
            ("endpoint", Json.str "/search/issues"),
            ("params", Json.obj [("q", Json.str q)]),
            ("repo", Json.str "octo/hello")]

/-
Character and string utilities shared by the embedded functions. The
JavaScript they model operates on UTF-16 strings; every string the embedded
code paths inspect is ASCII, where Lean characters and JS code units agree.
-/

/-- Membership in the regex class [A-Za-z0-9_] (JS word characters). -/
def isWordChar (c : Char) : Bool :=
  c.isAlpha || c.isDigit || c = '_'

/-- JavaScript whitespace as used by the \s and \S regex classes and by
Number() trimming, restricted to the ASCII range. -/
def isJsWs (c : Char) : Bool :=
  c = ' ' || c = '\t' || c = '\n' || c = '\r' || c = '\x0b' || c = '\x0c'

/-- ASCII lower-casing of one character, modelling toLowerCase on the ASCII
header names the code lower-cases. -/
def asciiLower (c : Char) : Char :=
  if 'A' ≤ c && c ≤ 'Z' then Char.ofNat (c.toNat + 32) else c

/-- ASCII lower-casing of a string. -/
def lowerStr (s : String) : String :=
  String.mk (s.data.map asciiLower)

/-- Maximal prefix satisfying a predicate, with the remainder. -/
def spanBy (p : Char → Bool) : List Char → List Char × List Char
  | [] => ([], [])
  | c :: rest =>
      if p c then
        let (run, rem) := spanBy p rest
        (c :: run, rem)
      else ([], c :: rest)

/-- Maximal digit run, with the remainder. -/
def takeDigits (l : List Char) : List Char × List Char :=
  spanBy Char.isDigit l

/-- Numeric value of a decimal digit run, modelling parseInt/Number on it.
The JS values are IEEE doubles, exact below 2^53; the numbers this code
parses (issue numbers, HTTP statuses, header seconds) are far below that. -/
def natOfDigits (ds : List Char) : Nat :=
  ds.foldl (fun a c => a * 10 + (c.toNat - 48)) 0

/-- Does the pattern occur as a prefix of the list? -/
def startsWith : List Char → List Char → Bool
  | [], _ => true
  | _ :: _, [] => false
  | p :: ps, c :: cs => p = c && startsWith ps cs

/-- Index of the first occurrence of a substring, modelling
String.prototype.indexOf (none for a negative indexOf result). -/
def findSub (pat : List Char) : List Char → Option Nat
  | [] => if startsWith pat [] then some 0 else none
  | c :: rest =>
      if startsWith pat (c :: rest) then some 0
      else (findSub pat rest).map (· + 1)

/-- Association-list update used for JS object key assignment: an existing
binding keeps its position and gets the new value, a new key is appended. -/
def setEntry (k v : String) : List (String × String) → List (String × String)
  | [] => [(k, v)]
  | (k2, v2) :: rest =>
      if k2 = k then (k, v) :: rest else (k2, v2) :: setEntry k v rest

/-- Splitting on the regex /\r?\n/: each LF, optionally preceded by CR,
ends a line; a lone CR stays inside its line. -/
def splitLines : List Char → List (List Char)
  | [] => [[]]
  | '\r' :: '\n' :: rest => [] :: splitLines rest
  | '\n' :: rest => [] :: splitLines rest
  | c :: rest =>
      match splitLines rest with
      | [] => [[c]]
      | line :: more => (c :: line) :: more

/-- Splitting on a literal comma, modelling String.prototype.split(','). -/
def splitComma : List Char → List (List Char)
  | [] => [[]]
  | ',' :: rest => [] :: splitComma rest
  | c :: rest =>
      match splitComma rest with
      | [] => [[c]]
      | line :: more => (c :: line) :: more

/-
Model of splitHttpResponse, parseLinkHeader and the status-line parse from
src/github/github_fetch.mjs.
-/

/-- Match of the header-line regex ^([^:]+):\s*(.*)$ against one line:
a nonempty name before the first colon, then the value after the colon with
leading JS whitespace dropped; the dot excludes line terminators, so a
remaining carriage return makes the whole line fail to match (the line is
then skipped). -/
def parseHeaderLine (line : List Char) : Option (String × String) :=
  let (nm, rest) := spanBy (fun c => c ≠ ':') line
  match nm, rest with
  | [], _ => none
  | _, [] => none
  | name, _ :: afterColon =>
      let v := afterColon.dropWhile isJsWs
      if v.any (fun c => c = '\r') then none
      else some (String.mk name, String.mk v)

/-- Match of the tail of the status regex /HTTP\/\S+\s+(\d+)/ right after a
literal "HTTP/": a nonempty non-whitespace run, a nonempty whitespace run,
then a digit run whose value is captured. Greedy backtracking cannot split
the runs anywhere else, so this scan is exact. -/
def statusAfterHttp (l : List Char) : Option Nat :=
  let (ns, r1) := spanBy (fun c => !isJsWs c) l
  if ns.isEmpty then none
  else
    let (ws, r2) := spanBy isJsWs r1
    if ws.isEmpty then none
    else
      let (ds, _) := takeDigits r2
      if ds.isEmpty then none else some (natOfDigits ds)

/-- Leftmost match of /HTTP\/\S+\s+(\d+)/ in a line (the regex is not
anchored, exec searches the whole status line). -/
def findStatus : List Char → Option Nat
  | [] => none
  | c :: rest =>
      match
        (if startsWith ['H', 'T', 'T', 'P', '/'] (c :: rest) then
          statusAfterHttp ((c :: rest).drop 5)
        else none)
      with
      | some n => some n
      | none => findStatus rest

/-- Result of splitting a raw captured HTTP exchange. -/
structure RawSplitOut where
  status : Option Nat
  headers : List (String × String)
  bodyText : String
deriving Repr

/-- Parse of the header block: the first line feeds the status regex, the
remaining lines fold into the lower-cased header map. -/
def parseHeaderBlock (headerText : List Char) :
    Option Nat × List (String × String) :=
  let headerLines := splitLines headerText
  (findStatus (headerLines.headD []),
   (headerLines.drop 1).foldl (fun acc line =>
     match parseHeaderLine line with
     | none => acc
     | some (nm, v) => setEntry (lowerStr nm) v acc) [])

/-- Model of splitHttpResponse: find a CRLF blank-line boundary anywhere,
else an LF blank-line boundary, split header block from body there, parse
the first header line for the status, and fold the remaining lines into a
lower-cased header map. -/
def splitHttpResponse (raw : String) : RawSplitOut :=
  let rawL := raw.data
  let idx :=
    match findSub ['\r', '\n', '\r', '\n'] rawL with
    | some i => some i
    | none => findSub ['\n', '\n'] rawL
  match idx with
  | none => { status := none, headers := [], bodyText := raw }
  | some i =>
      let headerText := rawL.take i
      let skip := if (rawL.drop i).head? = some '\r' then 4 else 2
      let bodyText := rawL.drop (i + skip)
      let hb := parseHeaderBlock headerText
      { status := hb.1, headers := hb.2, bodyText := String.mk bodyText }

/-- Modelled from the spec words for claim C6 only: the body that results
from splitting at the FIRST blank-line boundary occurring in the text,
whether LF-framed or CRLF-framed. Used to compare against what the code
actually does. -/
def specFirstBoundaryBody (raw : String) : Option String :=
  let rawL := raw.data
  let lfIdx := findSub ['\n', '\n'] rawL
  let crIdx := findSub ['\r', '\n', '\r', '\n'] rawL
  match lfIdx, crIdx with
  | none, none => none
  | some i, none => some (String.mk (rawL.drop (i + 2)))
  | none, some j => some (String.mk (rawL.drop (j + 4)))
  | some i, some j =>
      if j < i then some (String.mk (rawL.drop (j + 4)))
      else some (String.mk (rawL.drop (i + 2)))

/-- Leftmost match of the regex /<([^>]+)>/ in one link-header part. -/
def matchAngle : List Char → Option String
  | [] => none
  | '<' :: rest =>
      let (mid, r2) := spanBy (fun c => c ≠ '>') rest
      match mid, r2 with
      | _ :: _, '>' :: _ => some (String.mk mid)
      | _, _ => matchAngle rest
  | _ :: rest => matchAngle rest

/-- Leftmost match of the regex /rel="([^"]+)"/ in one link-header part. -/
def matchRel : List Char → Option String
  | [] => none
  | c :: rest =>
      if startsWith ['r', 'e', 'l', '=', '"'] (c :: rest) then
        let (mid, r2) := spanBy (fun ch => ch ≠ '"') ((c :: rest).drop 5)
        match mid, r2 with
        | _ :: _, '"' :: _ => some (String.mk mid)
        | _, _ => matchRel rest
      else matchRel rest

/-- Model of parseLinkHeader: split the header on commas and collect
rel-to-url bindings from the parts where both regexes match; a missing or
empty (falsy) header yields no relations. -/
def parseLinkHeader : Option String → List (String × String)
  | none => []
  | some s =>
      if s = "" then []
      else
        (splitComma s.data).foldl (fun rels part =>
          match matchAngle part, matchRel part with
          | some url, some rel => setEntry rel url rels
          | _, _ => rels) []

/-
Model of GitHubFetch.executeWithBackoff from src/github/github_fetch.mjs.
-/

/-- Result of one gh subprocess invocation, as returned by the runner. -/
structure RunnerResult where
  exitCode : Int
  stdout : String
  stderr : String
  timedOut : Bool
deriving Repr

/-- Parsed response handed back by the parse callback: status, headers and
decoded body. For callbacks that produce no headers object the code falls
back to an empty map, which the empty list models. -/
structure ParsedResp where
  status : Option Nat
  headers : List (String × String)
  body : Json
deriving Repr

/-- Observable side effects of one executeWithBackoff call: the argument of
every sleepFn invocation in milliseconds, and the number of ghRunner
invocations. -/
structure BackoffTrace where
  sleepsMs : List Int
  runnerCalls : Nat
deriving Repr, DecidableEq

/-- Model of JavaScript Number(string) on the decimal grammar of the
retry-after and rate-limit headers: optional surrounding whitespace, an
optional sign, and decimal digits; a whitespace-only string is 0. none
models NaN. Fractional, hex and exponent forms do not occur in these
headers and are outside the model. -/
def jsNumber (s : String) : Option Int :=
  let t := ((s.data.dropWhile isJsWs).reverse.dropWhile isJsWs).reverse
  match t with
  | [] => some 0
  | '-' :: ds =>
      if ds ≠ [] && ds.all Char.isDigit then some (-(natOfDigits ds : Int)) else none
  | '+' :: ds =>
      if ds ≠ [] && ds.all Char.isDigit then some ((natOfDigits ds : Int)) else none
  | ds => if ds.all Char.isDigit then some ((natOfDigits ds : Int)) else none

/-- Model of `Number(headers[name] || 'NaN')` followed by the
Number.isFinite test: a missing or empty header is NaN. -/
def headerNum (headers : List (String × String)) (name : String) : Option Int :=
  match lookupStr name headers with
  | none => none
  | some v => if v = "" then none else jsNumber v

/-- Model of the rate-limit test: status 429, or status 403 with a
remaining-quota header that stringifies to "0"
(`String(headers['x-ratelimit-remaining'] || '') === '0'`). -/
def isRateLimited (status : Option Nat) (headers : List (String × String)) : Bool :=
  status = some 429 ||
    (status = some 403 && lookupStr "x-ratelimit-remaining" headers = some "0")

/-- One iteration of the retry loop in executeWithBackoff, with the runner
indexed by the attempt number (the external world may answer the two
attempts differently) and the remaining loop iterations as fuel. The wait
computed on a rate-limited first attempt is recorded in the trace instead
of sleeping. -/
def backoffGo (runner : Nat → RunnerResult)
    (parseFn : String → Except String ParsedResp)
    (maxBackoffSeconds : Int) (nowEpoch : Int) :
    Nat → Nat → BackoffTrace → Except String ParsedResp × BackoffTrace
  | _, 0, tr => (Except.error "unexpected backoff loop state", tr)
  | attempt, rem + 1, tr =>
      let res := runner attempt
      let tr1 : BackoffTrace := { tr with runnerCalls := tr.runnerCalls + 1 }
      if res.timedOut then (Except.error "gh timed out", tr1)
      else if res.exitCode ≠ 0 && res.stdout = "" then
        (Except.error ("gh failed: " ++ res.stderr), tr1)
      else
        match parseFn res.stdout with
        | Except.error e => (Except.error e, tr1)
        | Except.ok parsed =>
            if !isRateLimited parsed.status parsed.headers || attempt = 1 then
              (Except.ok parsed, tr1)
            else
              let retryAfter := headerNum parsed.headers "retry-after"
              let resetEpoch := headerNum parsed.headers "x-ratelimit-reset"
              let waitSeconds :=
                match retryAfter with
                | some w => some w
                | none =>
                    match resetEpoch with
                    | some r => some (max 0 (r - nowEpoch))
                    | none => none
              match waitSeconds with
              | none => (Except.ok parsed, tr1)
              | some w =>
                  let w2 := min w maxBackoffSeconds
                  let tr2 :=
                    if w2 > 0 then
                      { tr1 with sleepsMs := tr1.sleepsMs ++ [w2 * 1000] }
                    else tr1
                  backoffGo runner parseFn maxBackoffSeconds nowEpoch (attempt + 1) rem tr2

/-- Model of executeWithBackoff: at most two attempts, starting from an
empty trace. -/
def executeWithBackoff (runner : Nat → RunnerResult)
    (parseFn : String → Except String ParsedResp)
    (maxBackoffSeconds : Int) (nowEpoch : Int) :
    Except String ParsedResp × BackoffTrace :=
  backoffGo runner parseFn maxBackoffSeconds nowEpoch 0 2 { sleepsMs := [], runnerCalls := 0 }

/-
Model of the file cache (src/github/file_cache.mjs) and of the cached REST
request paths of GitHubFetch (#restRequest, #restPaginateArray). The
on-disk cache directory becomes a key-indexed store; a file's mtime is the
stored write time. Atomic temp-file-and-rename writing and unparseable
files are below this model's granularity: a missing or corrupt entry is
modelled as an absent key, matching readJsonCache treating every stat or
parse error as a miss.
-/

/-- One cache file: the stored JSON value and the write-time mtime. -/
structure CacheFile where
  value : Json
  mtimeMs : Int
deriving Repr

/-- The cache directory contents. -/
abbrev CacheStore := List (String × CacheFile)

/-- Lookup of a cache file by key. -/
def lookupCache (k : String) : CacheStore → Option CacheFile
  | [] => none
  | (k2, f) :: rest => if k2 = k then some f else lookupCache k rest

/-- Overwrite-or-create of a cache file, modelling writing then renaming
over the destination path. -/
def setCache (k : String) (f : CacheFile) : CacheStore → CacheStore
  | [] => [(k, f)]
  | (k2, f2) :: rest =>
      if k2 = k then (k, f) :: rest else (k2, f2) :: setCache k f rest

/-- Model of readJsonCache: a present entry whose age exceeds the TTL reads
as null (a miss); ageSeconds > ttlSeconds is stated as
nowMs - mtimeMs > ttlSeconds * 1000, the same comparison without the
division. A none TTL models the undefined/null TTL that disables expiry. -/
def readJsonCache (cache : CacheStore) (key : String) (ttlSeconds : Option Int)
    (nowMs : Int) : Option Json :=
  match lookupCache key cache with
  | none => none
  | some f =>
      match ttlSeconds with
      | some ttl => if nowMs - f.mtimeMs > ttl * 1000 then none else some f.value
      | none => some f.value

/-- Raw parsed HTTP response of one transport request, the result shape of
GitHubFetch.#restRequestRaw. The request paths below take the transport as
an oracle from method and endpoint to such a response; one oracle call is
one underlying transport request. -/
def RawOracle := String → String → Except String ParsedResp

/-- String(v) coercion used by encodeQuery on defined query values; the
values the code passes are strings and numbers. -/
def jsToString : Json → String
  | Json.str s => s
  | Json.num n => toString n
  | Json.bool b => if b then "true" else "false"
  | _ => ""

/-- Characters that application/x-www-form-urlencoded leaves unescaped. -/
def formSafe (c : Char) : Bool :=
  c.isAlpha || c.isDigit || c = '*' || c = '-' || c = '.' || c = '_'

/-- Upper-case hex digit used by percent-encoding. -/
def hexDigitUpper (n : Nat) : Char :=
  if n < 10 then Char.ofNat (48 + n) else Char.ofNat (55 + n)

/-- Percent-encoding of one ASCII character in form encoding. -/
def formEncodeChar (c : Char) : String :=
  if c = ' ' then "+"
  else if formSafe c then String.singleton c
  else
    "%" ++ String.singleton (hexDigitUpper (c.toNat / 16)) ++
      String.singleton (hexDigitUpper (c.toNat % 16))

/-- Model of encodeQuery: null (and undefined) values are skipped, the
remaining entries go through URLSearchParams (set replaces an existing key
in place) and serialize to a query string, preceded by a question mark when
nonempty. -/
def encodeQuery (params : Json) : String :=
  let fs : List (String × Json) :=
    match params with
    | Json.obj fields => fields
    | _ => []
  let entries := fs.filterMap (fun kv =>
    match kv.2 with
    | Json.null => none
    | v => some (kv.1, jsToString v))
  let deduped := entries.foldl (fun acc kv => setEntry kv.1 kv.2 acc) []
  let qs := String.intercalate "&" (deduped.map (fun kv =>
    String.join (kv.1.data.map formEncodeChar) ++ "=" ++
      String.join (kv.2.data.map formEncodeChar)))
  if qs = "" then "" else "?" ++ qs

/-- Truthiness of a status at or above 400: `status && status >= 400`
(a null status is falsy, and 0 is both falsy and below 400). -/
def statusGe400 : Option Nat → Bool
  | some n => decide (400 ≤ n)
  | none => false

/-- Decimal rendering of a status for the error message interpolation. -/
def statusStr : Option Nat → String
  | some n => toString n
  | none => "null"

/-- State threaded through the cached request paths: the cache store plus
the count of transport (oracle) calls made. -/
structure FetchState where
  cache : CacheStore
  rawCalls : Nat

/-- The parts object of a #restRequest cache key; it carries params only
when the caller passed one, matching how an undefined params property is
skipped by JSON.stringify and leaves the params key out of the sorted
top-level key list. -/
def restParts (method endpoint : String) (params : Option Json) (repo : String) :
    Json :=
  Json.obj ([("kind", Json.str "rest"), ("method", Json.str method),
    ("endpoint", Json.str endpoint)] ++
    (match params with
     | some p => [("params", p)]
     | none => []) ++ [("repo", Json.str repo)])

/-- The cache key of a #restRequest. -/
def restKey (method endpoint : String) (params : Option Json) (repo : String) :
    String :=
  cacheKey (restParts method endpoint params repo)

/-- The full endpoint of a #restRequest: the query string is appended when
params were passed. -/
def restFullEndpoint (endpoint : String) (params : Option Json) : String :=
  match params with
  | some p => endpoint ++ encodeQuery p
  | none => endpoint

/-- The cache-miss path of #restRequest: one transport request, the status
check, and the cache write. -/
def restRequestFresh (oracle : RawOracle)
    (method endpoint : String) (params : Option Json) (useCache : Bool)
    (nowMs : Int) (st : FetchState) (key : String) :
    Except String Json × FetchState :=
  let fullEndpoint := restFullEndpoint endpoint params
  let st1 : FetchState := { st with rawCalls := st.rawCalls + 1 }
  match oracle method fullEndpoint with
  | Except.error e => (Except.error e, st1)
  | Except.ok resp =>
      if statusGe400 resp.status then
        (Except.error ("GitHub API error " ++ statusStr resp.status ++ " for " ++ endpoint), st1)
      else
        let st2 :=
          if useCache then
            { st1 with cache := setCache key { value := resp.body, mtimeMs := nowMs } st1.cache }
          else st1
        (Except.ok resp.body, st2)

/-- Model of GitHubFetch.#restRequest: serve a truthy, unexpired cached
value when caching is on; otherwise issue one transport request, fail on a
status at or above 400, and cache the decoded body on success. The parts
object carries params only when the caller passed one, matching how an
undefined params serializes to nothing. -/
def restRequest (oracle : RawOracle) (repo : String) (ttlSeconds : Option Int)
    (method endpoint : String) (params : Option Json) (useCache : Bool)
    (nowMs : Int) (st : FetchState) : Except String Json × FetchState :=
  let key := restKey method endpoint params repo
  let cached := if useCache then readJsonCache st.cache key ttlSeconds nowMs else none
  match cached with
  | some v =>
      if v.truthy then (Except.ok v, st)
      else restRequestFresh oracle method endpoint params useCache nowMs st key
  | none => restRequestFresh oracle method endpoint params useCache nowMs st key

/-- The pagination loop of #restPaginateArray: up to 200 pages, following
the next relation of the link header, failing on a status at or above 400
or a non-array body, and accumulating the items. Exhausting the 200-page
cap falls out of the loop and returns what was accumulated, as the source
for-loop does. -/
def restPaginateLoop (oracle : RawOracle) (endpoint : String) :
    Nat → String → List Json → FetchState → Except String Json × FetchState
  | 0, _, out, st => (Except.ok (Json.arr out), st)
  | fuel + 1, url, out, st =>
      let st1 : FetchState := { st with rawCalls := st.rawCalls + 1 }
      match oracle "GET" url with
      | Except.error e => (Except.error e, st1)
      | Except.ok resp =>
          if statusGe400 resp.status then
            (Except.error ("GitHub API error " ++ statusStr resp.status ++ " for " ++ endpoint), st1)
          else
            match resp.body with
            | Json.arr items =>
                let out2 := out ++ items
                match lookupStr "next" (parseLinkHeader (lookupStr "link" resp.headers)) with
                | none => (Except.ok (Json.arr out2), st1)
                | some nextUrl => restPaginateLoop oracle endpoint fuel nextUrl out2 st1
            | _ => (Except.error ("Expected array response for " ++ endpoint), st1)

/-- The parts object of a #restPaginateArray cache key. -/
def paginateParts (endpoint : String) (params : Json) (repo : String) : Json :=
  Json.obj [("kind", Json.str "rest-array"), ("endpoint", Json.str endpoint),
    ("params", params), ("repo", Json.str repo)]

/-- The cache key of a #restPaginateArray call. -/
def paginateKey (endpoint : String) (params : Json) (repo : String) : String :=
  cacheKey (paginateParts endpoint params repo)

/-- The first page url: the caller params spread together with
per_page=100 into the query string. -/
def paginateUrl0 (endpoint : String) (params : Json) : String :=
  let perPageParams :=
    match params with
    | Json.obj fs => Json.obj (fs ++ [("per_page", Json.num 100)])
    | _ => Json.obj [("per_page", Json.num 100)]
  endpoint ++ encodeQuery perPageParams

/-- The cache-miss path of #restPaginateArray. -/
def restPaginateFresh (oracle : RawOracle) (endpoint : String)
    (params : Json) (useCache : Bool) (nowMs : Int) (st : FetchState)
    (key : String) : Except String Json × FetchState :=
  let url0 := paginateUrl0 endpoint params
  match restPaginateLoop oracle endpoint 200 url0 [] st with
  | (Except.error e, st1) => (Except.error e, st1)
  | (Except.ok v, st1) =>
      let st2 :=
        if useCache then
          { st1 with cache := setCache key { value := v, mtimeMs := nowMs } st1.cache }
        else st1
      (Except.ok v, st2)

/-- Model of GitHubFetch.#restPaginateArray: serve a truthy unexpired cache
entry, else run the pagination loop from the endpoint with per_page=100
and cache the accumulated array only after the whole loop succeeded. -/
def restPaginateArray (oracle : RawOracle) (repo : String) (ttlSeconds : Option Int)
    (endpoint : String) (params : Json) (useCache : Bool) (nowMs : Int)
    (st : FetchState) : Except String Json × FetchState :=
  let key := paginateKey endpoint params repo
  let cached := if useCache then readJsonCache st.cache key ttlSeconds nowMs else none
  match cached with
  | some v =>
      if v.truthy then (Except.ok v, st)
      else restPaginateFresh oracle endpoint params useCache nowMs st key
  | none => restPaginateFresh oracle endpoint params useCache nowMs st key

/-
Model of extractReferencedNumbers from src/graph/reference_extraction.mjs.
Each of the three regex scans is embedded as a deterministic character
scan; in each pattern no character class overlaps its follower, so greedy
matching with backtracking collapses to maximal runs and the scans are
exact. matchAll semantics: a successful match resumes after its end, a
failed attempt resumes one character later.
-/

/-- The word boundary \b after a digit run: end of input or a non-word
character next. -/
def boundaryOk : List Char → Bool
  | [] => true
  | c :: _ => !isWordChar c

/-- Match of `#` followed by captured digits and a boundary, at the head of
the input: the shared tail of both alternatives of the shorthand regex
/(^|[^A-Za-z0-9_])#(\d+)\b/. Returns the captured value and the rest. -/
def shMatchHash : List Char → Option (Nat × List Char)
  | '#' :: rest =>
      let (ds, after) := takeDigits rest
      if ds ≠ [] && boundaryOk after then some (natOfDigits ds, after) else none
  | _ => none

/-- Attempt of the shorthand regex at one position: the `^` alternative
(only at the start of the string), else one non-word character and the
hash tail. -/
def shMatchAt (bol : Bool) (l : List Char) : Option (Nat × List Char) :=
  match (if bol then shMatchHash l else none) with
  | some r => some r
  | none =>
      match l with
      | c :: rest => if !isWordChar c then shMatchHash rest else none
      | [] => none

/-- The matchAll loop of the shorthand regex. The fuel dominates the input
length, so it never runs out; it makes the variable-advance recursion
structural. -/
def shScanF : Nat → Bool → List Char → List Nat
  | 0, _, _ => []
  | fuel + 1, bol, l =>
      match l with
      | [] => []
      | _ :: rest =>
          match shMatchAt bol l with
          | some (n, after) => n :: shScanF fuel false after
          | none => shScanF fuel false rest

/-- Numbers collected from the shorthand pattern, with the positivity
filter applied at collection (Number.isFinite also holds for every number
in the model range, see natOfDigits). -/
def shorthandNums (text : List Char) : List Nat :=
  (shScanF (text.length + 1) true text).filter (fun n => 0 < n)

/-- The regex class [A-Za-z0-9_.-] of the qualified owner/repo pattern. -/
def isClsChar (c : Char) : Bool :=
  c.isAlpha || c.isDigit || c = '_' || c = '.' || c = '-'

/-- Attempt of the qualified regex /([A-Za-z0-9_.-]+\/[A-Za-z0-9_.-]+)#(\d+)\b/
at one position: two nonempty class runs split by a slash, a hash, digits
and a boundary. The class cannot contain the slash or the hash, so the
greedy runs are forced. Returns the captured owner/repo string, the value
and the rest. -/
def qualMatchAt (l : List Char) : Option ((String × Nat) × List Char) :=
  let (r1, rest1) := spanBy isClsChar l
  if r1 = [] then none
  else
    match rest1 with
    | '/' :: rest2 =>
        let (r2, rest3) := spanBy isClsChar rest2
        if r2 = [] then none
        else
          match rest3 with
          | '#' :: rest4 =>
              let (ds, after) := takeDigits rest4
              if ds ≠ [] && boundaryOk after then
                some ((String.mk (r1 ++ '/' :: r2), natOfDigits ds), after)
              else none
          | _ => none
    | _ => none

/-- The matchAll loop of the qualified regex. -/
def qualScanF : Nat → List Char → List (String × Nat)
  | 0, _ => []
  | fuel + 1, l =>
      match l with
      | [] => []
      | _ :: rest =>
          match qualMatchAt l with
          | some (m, after) => m :: qualScanF fuel after
          | none => qualScanF fuel rest

/-- Numbers collected from the qualified pattern, filtered to the target
repository and to positive values. -/
def qualifiedNums (repoFull : String) (text : List Char) : List Nat :=
  (((qualScanF (text.length + 1) text).filter (fun m => m.1 = repoFull)).map
    Prod.snd).filter (fun n => 0 < n)

/-- Match of the literal prefix https?://github.com/ at the head of the
input: with an `s` present the no-s alternative would need a colon at the
same position, so the optional quantifier is deterministic. -/
def stripHttpGithub (l : List Char) : Option (List Char) :=
  if startsWith ['h', 't', 't', 'p'] l then
    let l2 := l.drop 4
    match l2 with
    | 's' :: r =>
        if startsWith "://github.com/".data r then some (r.drop 14) else none
    | _ =>
        if startsWith "://github.com/".data l2 then some (l2.drop 14) else none
  else none

/-- Match of the alternation (issues|pull) followed by a slash. -/
def stripIssuesOrPull (l : List Char) : Option (List Char) :=
  if startsWith "issues/".data l then some (l.drop 7)
  else if startsWith "pull/".data l then some (l.drop 5)
  else none

/-- Attempt of the URL regex
/https?:\/\/github\.com\/([^\/]+)\/([^\/]+)\/(issues|pull)\/(\d+)\b/ at one
position. The [^/]+ runs are forced by the slashes, so greedy matching is
deterministic here as well. Returns both captured segments, the value and
the rest. -/
def urlMatchAt (l : List Char) : Option ((String × String × Nat) × List Char) :=
  match stripHttpGithub l with
  | none => none
  | some rest0 =>
      let (s1, rest1) := spanBy (fun c => c ≠ '/') rest0
      if s1 = [] then none
      else
        match rest1 with
        | '/' :: rest2 =>
            let (s2, rest3) := spanBy (fun c => c ≠ '/') rest2
            if s2 = [] then none
            else
              match rest3 with
              | '/' :: rest4 =>
                  match stripIssuesOrPull rest4 with
                  | none => none
                  | some rest5 =>
                      let (ds, after) := takeDigits rest5
                      if ds ≠ [] && boundaryOk after then
                        some ((String.mk s1, String.mk s2, natOfDigits ds), after)
                      else none
              | _ => none
        | _ => none

/-- The matchAll loop of the URL regex. -/
def urlScanF : Nat → List Char → List (String × String × Nat)
  | 0, _ => []
  | fuel + 1, l =>
      match l with
      | [] => []
      | _ :: rest =>
          match urlMatchAt l with
          | some (m, after) => m :: urlScanF fuel after
          | none => urlScanF fuel rest

/-- Numbers collected from the URL pattern, filtered to the target
repository and to positive values. -/
def urlNums (repoFull : String) (text : List Char) : List Nat :=
  (((urlScanF (text.length + 1) text).filter (fun m =>
    m.1 ++ "/" ++ m.2.1 = repoFull)).map (fun m => m.2.2)).filter (fun n => 0 < n)

/-- Push of a value onto a list unless already present: the Set.add of the
extraction result and the uniquePush helper of the graph builder. -/
def addUniq (acc : List Nat) (n : Nat) : List Nat :=
  if acc.contains n then acc else acc ++ [n]

/-- Insertion-order deduplication, modelling collecting into a Set. -/
def setAdd (l : List Nat) : List Nat :=
  l.foldl addUniq []

/-- Ascending numeric sort, modelling Array.from(set).sort((a, b) => a - b). -/
def sortNatAsc (l : List Nat) : List Nat :=
  List.insertionSort (fun a b => a ≤ b) l

/-- Model of extractReferencedNumbers: a falsy (null or empty) text yields
the empty list; otherwise the three pattern scans feed one deduplicated,
ascending-sorted result. -/
def extractReferencedNumbers (text : Option String) (owner repo : String) :
    List Nat :=
  match text with
  | none => []
  | some t =>
      if t = "" then []
      else
        let repoFull := owner ++ "/" ++ repo
        let chars := t.data
        sortNatAsc (setAdd
          (shorthandNums chars ++ qualifiedNums repoFull chars ++
            urlNums repoFull chars))

/-- Decidable witness scan used to state claim C7: does the text contain a
properly boundaried shorthand occurrence of the number, that is a position
with a hash, a digit run of value n and a trailing boundary, whose
preceding character is absent (start of text) or a non-word character? -/
def hashBoundHere (n : Nat) : List Char → Bool
  | '#' :: rest =>
      let (ds, after) := takeDigits rest
      ds ≠ [] && natOfDigits ds = n && boundaryOk after
  | _ => false

/-- Scan for a properly boundaried occurrence anywhere in the input; the
flag records whether the current position is the start of the text. -/
def boundOccScan (n : Nat) : Bool → List Char → Bool
  | _, [] => false
  | bol, c :: rest =>
      (bol && hashBoundHere n (c :: rest)) ||
      (!isWordChar c && hashBoundHere n rest) ||
      boundOccScan n false rest

/-- A properly boundaried shorthand occurrence of n exists in the text. -/
def hasBoundedHashOcc (n : Nat) (text : List Char) : Bool :=
  boundOccScan n true text

/-
Model of buildReferenceGraph from src/graph/reference_graph_builder.mjs.
Dynamic GitHub payloads are embedded as records carrying exactly the
fields the builder reads; a none where the code checks for a missing
object or field models null/undefined.
-/

/-- Classification of a referenced number. -/
inductive NumKind where
  | issue : NumKind
  | pr : NumKind
  | unknown : NumKind
deriving DecidableEq, Repr

/-- A typed timeline reference (the closer or source of an event), with
its __typename tag and its number when that field is number-typed. -/
structure TLRef where
  typename : String
  number : Option Nat := none
deriving Repr

/-- One timeline event as the builder inspects it: the __typename tag and
the optional closer/source payloads. -/
structure TimelineEvent where
  typename : String
  closer : Option TLRef := none
  source : Option TLRef := none
deriving Repr

/-- A comment object; only the body is read. -/
structure CommentObj where
  body : Option String := none
deriving Repr

/-- A pull-request payload, carrying the fields the builder reads. -/
structure PrPayload where
  title : Option String := none
  html_url : Option String := none
  url : Option String := none
  merged_at : Option String := none
  closed_at : Option String := none
  state : Option String := none
  body : Option String := none
deriving Repr

/-- An issue payload as the classifier reads it: a present value models a
non-null object response, and pull_request models the truthiness of the
pull_request marker field. -/
structure IssuePayload where
  pull_request : Bool
deriving Repr

/-- The result shape of listPRComments. -/
structure CommentsResult where
  issueComments : List (Option CommentObj) := []
  reviewComments : List (Option CommentObj) := []
  all : List (Option CommentObj)
deriving Repr

/-- The GitHubFetch client interface the builder consumes, as a
deterministic oracle: test fixtures and the cached client both behave as
functions of the requested number during one build. -/
structure GhClient where
  getPR : Nat → Except String (Option PrPayload)
  getIssue : Nat → Except String (Option IssuePayload)
  listPRComments : Nat → Except String CommentsResult
  getIssueTimeline : Nat → Except String (List (Option TimelineEvent))

/-- Model of extractReferencedNumbersFromPRAndComments: the PR body and
every comment body, each defaulting to the empty string, joined with blank
lines and extracted. -/
def extractReferencedNumbersFromPRAndComments (pr : Option PrPayload)
    (comments : Option (List (Option CommentObj))) (owner repo : String) :
    List Nat :=
  let parts := ((pr.bind PrPayload.body).getD "") ::
    (comments.getD []).map (fun c => (c.bind CommentObj.body).getD "")
  extractReferencedNumbers (some (String.intercalate "\n\n" parts)) owner repo

/-- A graph node; stub nodes leave the metadata fields at none, matching
node objects created without those properties. -/
structure GraphNode where
  id : String
  type : String
  owner : String
  repo : String
  number : Nat
  title : Option String := none
  url : Option String := none
  mergedAt : Option String := none
  closedAt : Option String := none
  state : Option String := none
deriving Repr, DecidableEq

/-- A graph edge; fromId and toId model the from and to fields (from is a
Lean keyword). -/
structure GraphEdge where
  fromId : String
  toId : String
  type : String
deriving Repr, DecidableEq

/-- The api-call counters of the build stats. -/
structure ApiCalls where
  getPR : Nat := 0
  getIssue : Nat := 0
  listPRComments : Nat := 0
  getIssueTimeline : Nat := 0
deriving Repr, DecidableEq

/-- The truncation counters of the build stats. -/
structure Truncated where
  layer1Refs : Bool := false
  closingPrs : Nat := 0
  layer2Refs : Nat := 0
  layer2ClosingPrs : Nat := 0
deriving Repr, DecidableEq

/-- The build stats. -/
structure BuildStats where
  apiCalls : ApiCalls := {}
  truncated : Truncated := {}
deriving Repr, DecidableEq

/-- The four resolved caps. -/
structure Caps where
  maxLayer1References : Nat
  maxClosingPrsPerIssue : Nat
  maxLayer2ReferencesPerPr : Nat
  maxLayer2ClosingPrsPerIssue : Nat
deriving Repr, DecidableEq

/-- The optional budgets argument; none models an absent property
defaulted with ??. -/
structure Budgets where
  maxLayer1References : Option Nat := none
  maxClosingPrsPerIssue : Option Nat := none
  maxLayer2ReferencesPerPr : Option Nat := none
  maxLayer2ClosingPrsPerIssue : Option Nat := none
deriving Repr

/-- The reference graph under construction and as returned. -/
structure RefGraph where
  rootId : String
  nodes : List (String × GraphNode)
  edges : List GraphEdge
  budgets : Caps
  stats : BuildStats
deriving Repr

/-- Builder state: the graph plus the per-invocation classification cache. -/
structure BuildState where
  graph : RefGraph
  kindCache : List (Nat × NumKind)
deriving Repr

/-- Node id of a pull request. -/
def prNodeId (owner repo : String) (number : Nat) : String :=
  "pr:" ++ owner ++ "/" ++ repo ++ "#" ++ toString number

/-- Node id of an issue. -/
def issueNodeId (owner repo : String) (number : Nat) : String :=
  "issue:" ++ owner ++ "/" ++ repo ++ "#" ++ toString number

/-- Lookup of a node by key, modelling graph.nodes[id]. -/
def lookupNode (k : String) : List (String × GraphNode) → Option GraphNode
  | [] => none
  | (k2, n) :: rest => if k2 = k then some n else lookupNode k rest

/-- Presence of a node key, the truthiness test on graph.nodes[id]. -/
def nodesHasKey (nodes : List (String × GraphNode)) (k : String) : Bool :=
  (lookupNode k nodes).isSome

/-- Assignment graph.nodes[node.id] = node: replace in place or append. -/
def setNodeEntry (k : String) (n : GraphNode) :
    List (String × GraphNode) → List (String × GraphNode)
  | [] => [(k, n)]
  | (k2, n2) :: rest =>
      if k2 = k then (k, n) :: rest else (k2, n2) :: setNodeEntry k n rest

/-- Model of addNode. -/
def addNode (g : RefGraph) (n : GraphNode) : RefGraph :=
  { g with nodes := setNodeEntry n.id n g.nodes }

/-- Model of addEdge (a push onto graph.edges). -/
def addEdge (g : RefGraph) (e : GraphEdge) : RefGraph :=
  { g with edges := g.edges ++ [e] }

/-- Lookup in the classification cache. -/
def lookupKind (n : Nat) : List (Nat × NumKind) → Option NumKind
  | [] => none
  | (n2, k) :: rest => if n2 = n then some k else lookupKind n rest

/-- Increment of stats.apiCalls.getPR. -/
def bumpGetPR (g : RefGraph) : RefGraph :=
  { g with stats := { g.stats with apiCalls :=
      { g.stats.apiCalls with getPR := g.stats.apiCalls.getPR + 1 } } }

/-- Increment of stats.apiCalls.getIssue. -/
def bumpGetIssue (g : RefGraph) : RefGraph :=
  { g with stats := { g.stats with apiCalls :=
      { g.stats.apiCalls with getIssue := g.stats.apiCalls.getIssue + 1 } } }

/-- Increment of stats.apiCalls.listPRComments. -/
def bumpListPRComments (g : RefGraph) : RefGraph :=
  { g with stats := { g.stats with apiCalls :=
      { g.stats.apiCalls with listPRComments := g.stats.apiCalls.listPRComments + 1 } } }

/-- Increment of stats.apiCalls.getIssueTimeline. -/
def bumpGetIssueTimeline (g : RefGraph) : RefGraph :=
  { g with stats := { g.stats with apiCalls :=
      { g.stats.apiCalls with getIssueTimeline := g.stats.apiCalls.getIssueTimeline + 1 } } }

/-- Increment of stats.truncated.closingPrs. -/
def bumpClosingTrunc (g : RefGraph) : RefGraph :=
  { g with stats := { g.stats with truncated :=
      { g.stats.truncated with closingPrs := g.stats.truncated.closingPrs + 1 } } }

/-- Increment of stats.truncated.layer2Refs. -/
def bumpLayer2RefsTrunc (g : RefGraph) : RefGraph :=
  { g with stats := { g.stats with truncated :=
      { g.stats.truncated with layer2Refs := g.stats.truncated.layer2Refs + 1 } } }

/-- Setting of stats.truncated.layer1Refs. -/
def setLayer1Trunc (g : RefGraph) : RefGraph :=
  { g with stats := { g.stats with truncated :=
      { g.stats.truncated with layer1Refs := true } } }

/-- Model of the closure getNumberKind: cache hit, else count and issue the
getIssue fetch, classify the payload, and memoize. A thrown fetch error
propagates. -/
def getNumberKind (gh : GhClient) (st : BuildState) (num : Nat) :
    Except String (NumKind × BuildState) :=
  match lookupKind num st.kindCache with
  | some k => Except.ok (k, st)
  | none =>
      let st1 : BuildState := { st with graph := bumpGetIssue st.graph }
      match gh.getIssue num with
      | Except.error e => Except.error e
      | Except.ok issue =>
          let kind :=
            match issue with
            | some p => if p.pull_request then NumKind.pr else NumKind.issue
            | none => NumKind.unknown
          Except.ok (kind, { st1 with kindCache := st1.kindCache ++ [(num, kind)] })

/-- Model of the closure fetchPRWithComments. -/
def fetchPRWithComments (gh : GhClient) (st : BuildState) (num : Nat) :
    Except String ((Option PrPayload × List (Option CommentObj)) × BuildState) :=
  let st1 : BuildState := { st with graph := bumpGetPR st.graph }
  match gh.getPR num with
  | Except.error e => Except.error e
  | Except.ok pr =>
      let st2 : BuildState := { st1 with graph := bumpListPRComments st1.graph }
      match gh.listPRComments num with
      | Except.error e => Except.error e
      | Except.ok comments => Except.ok ((pr, comments.all), st2)

/-- One event step of timelinePRNumbers: a ClosedEvent whose closer is a
pull request with a numeric number feeds the closing list, a
CrossReferencedEvent whose source is such feeds the cross-reference list;
both with uniquePush. -/
def timelineStep (acc : List Nat × List Nat) (ev : Option TimelineEvent) :
    List Nat × List Nat :=
  match ev with
  | none => acc
  | some e =>
      let acc1 :=
        if e.typename = "ClosedEvent" then
          match e.closer with
          | some c =>
              if c.typename = "PullRequest" then
                match c.number with
                | some n => (addUniq acc.1 n, acc.2)
                | none => acc
              else acc
          | none => acc
        else acc
      if e.typename = "CrossReferencedEvent" then
        match e.source with
        | some src =>
            if src.typename = "PullRequest" then
              match src.number with
              | some n => (acc1.1, addUniq acc1.2 n)
              | none => acc1
            else acc1
        | none => acc1
      else acc1

/-- Model of timelinePRNumbers: fold the events, then sort both lists
ascending. -/
def timelinePRNumbers (nodes : List (Option TimelineEvent)) :
    List Nat × List Nat :=
  let acc := nodes.foldl timelineStep ([], [])
  (sortNatAsc acc.1, sortNatAsc acc.2)

/-- The per-number body of the two edge loops in addIssueTimelineEdges:
create the PR stub when absent, then add the typed edge from the issue. -/
def addTimelineEdgeList (owner repo : String) (issueNum : Nat) (etype : String) :
    List Nat → RefGraph → RefGraph
  | [], g => g
  | n :: rest, g =>
      let pid := prNodeId owner repo n
      let g1 :=
        if nodesHasKey g.nodes pid then g
        else addNode g { id := pid, type := "pr", owner := owner, repo := repo, number := n }
      let g2 := addEdge g1
        { fromId := issueNodeId owner repo issueNum, toId := pid, type := etype }
      addTimelineEdgeList owner repo issueNum etype rest g2

/-- Model of the closure addIssueTimelineEdges: fetch the timeline, take
the closing list up to the budget and fill the remainder from the
cross-reference list, bump the closingPrs truncation counter for each list
that lost entries, then add stub nodes and edges. -/
def addIssueTimelineEdges (gh : GhClient) (owner repo : String) (st : BuildState)
    (issueNum : Nat) (maxPrs : Nat) (edgeKindFor : String → String) :
    Except String ((List Nat × List Nat) × BuildState) :=
  let st1 : BuildState := { st with graph := bumpGetIssueTimeline st.graph }
  match gh.getIssueTimeline issueNum with
  | Except.error e => Except.error e
  | Except.ok timeline =>
      let prNums := timelinePRNumbers timeline
      let closing := prNums.1.take maxPrs
      let cross := prNums.2.take (maxPrs - closing.length)
      let g1 := if closing.length < prNums.1.length then bumpClosingTrunc st1.graph else st1.graph
      let g2 := if cross.length < prNums.2.length then bumpClosingTrunc g1 else g1
      let g3 := addTimelineEdgeList owner repo issueNum (edgeKindFor "closed_by") closing g2
      let g4 := addTimelineEdgeList owner repo issueNum (edgeKindFor "cross_referenced_by") cross g3
      Except.ok ((closing, cross), { st1 with graph := g4 })

/-- The layer-1 classification loop: classify each surviving reference and
partition into issues and prs, in order; unknown numbers join neither. -/
def classifyLayer1 (gh : GhClient) :
    List Nat → BuildState → List Nat → List Nat →
    Except String (BuildState × List Nat × List Nat)
  | [], st, issues, prs => Except.ok (st, issues, prs)
  | n :: rest, st, issues, prs =>
      match getNumberKind gh st n with
      | Except.error e => Except.error e
      | Except.ok (kind, st1) =>
          if kind = NumKind.issue then classifyLayer1 gh rest st1 (issues ++ [n]) prs
          else if kind = NumKind.pr then classifyLayer1 gh rest st1 issues (prs ++ [n])
          else classifyLayer1 gh rest st1 issues prs

/-- The layer-1 issue loop: an unconditional node per issue and a
references edge from the root. -/
def addLayer1IssueNodes (owner repo rootId : String) :
    List Nat → RefGraph → RefGraph
  | [], g => g
  | n :: rest, g =>
      let iid := issueNodeId owner repo n
      let g1 := addNode g { id := iid, type := "issue", owner := owner, repo := repo, number := n }
      let g2 := addEdge g1 { fromId := rootId, toId := iid, type := "references" }
      addLayer1IssueNodes owner repo rootId rest g2

/-- The layer-1 PR loop: an unconditional node per PR and a references
edge from the root. -/
def addLayer1PrNodes (owner repo rootId : String) :
    List Nat → RefGraph → RefGraph
  | [], g => g
  | n :: rest, g =>
      let pid := prNodeId owner repo n
      let g1 := addNode g { id := pid, type := "pr", owner := owner, repo := repo, number := n }
      let g2 := addEdge g1 { fromId := rootId, toId := pid, type := "references" }
      addLayer1PrNodes owner repo rootId rest g2

/-- One related-PR accumulation step of the layer-1 issue expansion:
uniquePush the PR number and re-create the issue node if somehow absent. -/
def relatedStep (owner repo : String) (issueNum : Nat)
    (p : List Nat × RefGraph) (prNum : Nat) : List Nat × RefGraph :=
  let issueId := issueNodeId owner repo issueNum
  (addUniq p.1 prNum,
   if nodesHasKey p.2.nodes issueId then p.2
   else addNode p.2
     { id := issueId, type := "issue", owner := owner, repo := repo, number := issueNum })

/-- The layer-1 issue expansion loop: timeline edges per issue, collecting
the union of surfaced PR numbers. -/
def expandLayer1Issues (gh : GhClient) (owner repo : String) (maxPrs : Nat) :
    List Nat → BuildState → List Nat → Except String (BuildState × List Nat)
  | [], st, acc => Except.ok (st, acc)
  | issueNum :: rest, st, acc =>
      match addIssueTimelineEdges gh owner repo st issueNum maxPrs (fun k => k) with
      | Except.error e => Except.error e
      | Except.ok ((closing, cross), st1) =>
          let step := (closing ++ cross).foldl (relatedStep owner repo issueNum) (acc, st1.graph)
          expandLayer1Issues gh owner repo maxPrs rest { st1 with graph := step.2 } step.1

/-- Metadata node for a fetched PR: title, html_url else url, timestamps
and state, each defaulting to null. -/
def prNodeWithMeta (pid owner repo : String) (prNum : Nat)
    (pr : Option PrPayload) : GraphNode :=
  { id := pid, type := "pr", owner := owner, repo := repo, number := prNum,
    title := pr.bind PrPayload.title,
    url := (match pr.bind PrPayload.html_url with
            | some u => some u
            | none => pr.bind PrPayload.url),
    mergedAt := pr.bind PrPayload.merged_at,
    closedAt := pr.bind PrPayload.closed_at,
    state := pr.bind PrPayload.state }

/-- The layer-2 reference classification loop of one related PR: issues
and PRs get nodes (when absent), references edges from the PR, and join
the layer-2 worklists via uniquePush; unknown numbers are skipped. -/
def classifyLayer2Refs (gh : GhClient) (owner repo : String) (pid : String) :
    List Nat → BuildState → List Nat → List Nat →
    Except String (BuildState × List Nat × List Nat)
  | [], st, l2i, l2p => Except.ok (st, l2i, l2p)
  | n :: rest, st, l2i, l2p =>
      match getNumberKind gh st n with
      | Except.error e => Except.error e
      | Except.ok (kind, st1) =>
          if kind = NumKind.issue then
            let iid := issueNodeId owner repo n
            let g1 :=
              if nodesHasKey st1.graph.nodes iid then st1.graph
              else addNode st1.graph
                { id := iid, type := "issue", owner := owner, repo := repo, number := n }
            let g2 := addEdge g1 { fromId := pid, toId := iid, type := "references" }
            classifyLayer2Refs gh owner repo pid rest { st1 with graph := g2 }
              (addUniq l2i n) l2p
          else if kind = NumKind.pr then
            let rid := prNodeId owner repo n
            let g1 :=
              if nodesHasKey st1.graph.nodes rid then st1.graph
              else addNode st1.graph
                { id := rid, type := "pr", owner := owner, repo := repo, number := n }
            let g2 := addEdge g1 { fromId := pid, toId := rid, type := "references" }
            classifyLayer2Refs gh owner repo pid rest { st1 with graph := g2 }
              l2i (addUniq l2p n)
          else classifyLayer2Refs gh owner repo pid rest st1 l2i l2p

/-- The related-PR expansion loop: fetch each PR with comments, upgrade
its node unless it already carries a title, extract and cap layer-2
references (counting truncation), and classify them. -/
def expandRelatedPRs (gh : GhClient) (owner repo : String) (maxRefs : Nat) :
    List Nat → BuildState → List Nat → List Nat →
    Except String (BuildState × List Nat × List Nat)
  | [], st, l2i, l2p => Except.ok (st, l2i, l2p)
  | prNum :: rest, st, l2i, l2p =>
      match fetchPRWithComments gh st prNum with
      | Except.error e => Except.error e
      | Except.ok ((pr, comments), st1) =>
          let pid := prNodeId owner repo prNum
          let upgrade :=
            match lookupNode pid st1.graph.nodes with
            | none => true
            | some node => node.title = none
          let g1 :=
            if upgrade then addNode st1.graph (prNodeWithMeta pid owner repo prNum pr)
            else st1.graph
          let refsAll := extractReferencedNumbersFromPRAndComments pr (some comments) owner repo
          let refs := refsAll.take maxRefs
          let g2 := if refs.length < refsAll.length then bumpLayer2RefsTrunc g1 else g1
          match classifyLayer2Refs gh owner repo pid refs { st1 with graph := g2 } l2i l2p with
          | Except.error e => Except.error e
          | Except.ok (st2, l2i2, l2p2) =>
              expandRelatedPRs gh owner repo maxRefs rest st2 l2i2 l2p2

/-- The layer-2 issue expansion loop: timeline edges only, no further PR
expansion. -/
def expandLayer2Issues (gh : GhClient) (owner repo : String) (maxPrs : Nat) :
    List Nat → BuildState → Except String BuildState
  | [], st => Except.ok st
  | issueNum :: rest, st =>
      match addIssueTimelineEdges gh owner repo st issueNum maxPrs (fun k => k) with
      | Except.error e => Except.error e
      | Except.ok (_, st1) => expandLayer2Issues gh owner repo maxPrs rest st1

/-- The final stub loop for layer-2 PRs never expanded. -/
def addLayer2PrStubs (owner repo : String) : List Nat → RefGraph → RefGraph
  | [], g => g
  | prNum :: rest, g =>
      let pid := prNodeId owner repo prNum
      let g1 :=
        if nodesHasKey g.nodes pid then g
        else addNode g { id := pid, type := "pr", owner := owner, repo := repo, number := prNum }
      addLayer2PrStubs owner repo rest g1

/-- The layer stages of buildReferenceGraph after the root PR has been
fetched, its node added and the layer-1 references taken: classification,
layer-1 nodes and edges, issue expansion, related-PR expansion, layer-2
issue expansion and the final stub loop. -/
def buildLayers (gh : GhClient) (owner repo rootId : String)
    (maxClose maxRefs maxClose2 : Nat) (layer1 : List Nat) (st3 : BuildState) :
    Except String RefGraph :=
  match classifyLayer1 gh layer1 st3 [] [] with
  | Except.error e => Except.error e
  | Except.ok (st4, layer1Issues, layer1PRs) =>
      let g5 := addLayer1IssueNodes owner repo rootId layer1Issues st4.graph
      let g6 := addLayer1PrNodes owner repo rootId layer1PRs g5
      match expandLayer1Issues gh owner repo maxClose layer1Issues
          { st4 with graph := g6 } [] with
      | Except.error e => Except.error e
      | Except.ok (st5, relatedPRs) =>
          match expandRelatedPRs gh owner repo maxRefs relatedPRs st5 [] [] with
          | Except.error e => Except.error e
          | Except.ok (st6, layer2Issues, layer2PRs) =>
              match expandLayer2Issues gh owner repo maxClose2 layer2Issues st6 with
              | Except.error e => Except.error e
              | Except.ok st7 =>
                  Except.ok (addLayer2PrStubs owner repo layer2PRs st7.graph)

/-- Model of buildReferenceGraph: the two-layer budgeted crawl. -/
def buildReferenceGraph (gh : GhClient) (owner repo : String) (prNumber : Nat)
    (budgets : Budgets) : Except String RefGraph :=
  let caps : Caps :=
    { maxLayer1References := budgets.maxLayer1References.getD 10,
      maxClosingPrsPerIssue := budgets.maxClosingPrsPerIssue.getD 5,
      maxLayer2ReferencesPerPr := budgets.maxLayer2ReferencesPerPr.getD 10,
      maxLayer2ClosingPrsPerIssue := budgets.maxLayer2ClosingPrsPerIssue.getD 5 }
  let g0 : RefGraph :=
    { rootId := prNodeId owner repo prNumber, nodes := [], edges := [],
      budgets := caps, stats := {} }
  let st0 : BuildState := { graph := g0, kindCache := [] }
  match fetchPRWithComments gh st0 prNumber with
  | Except.error e => Except.error e
  | Except.ok ((rootPr, rootComments), st1) =>
      let st2 : BuildState :=
        { st1 with graph := addNode st1.graph (prNodeWithMeta g0.rootId owner repo prNumber rootPr) }
      let layer1All := extractReferencedNumbersFromPRAndComments rootPr (some rootComments) owner repo
      let layer1 := layer1All.take caps.maxLayer1References
      let st3 : BuildState :=
        if layer1.length < layer1All.length then { st2 with graph := setLayer1Trunc st2.graph }
        else st2
      buildLayers gh owner repo g0.rootId caps.maxClosingPrsPerIssue
        caps.maxLayer2ReferencesPerPr caps.maxLayer2ClosingPrsPerIssue layer1 st3

/-
Concrete fixtures used by counterexamples and witnesses. Each claim keeps
its own fixtures.
-/

/-- C1 counterexample fixture: the root PR references number 5 and the
classification fetch for it fails with an HTTP 404 error. -/
def ghC1bad : GhClient where
  getPR n :=
    if n = 1 then Except.ok (some { body := some "see #5" })
    else Except.error "missing stub PR"
  getIssue _ := Except.error "GitHub API error 404 for /repos/octo/hello/issues/5"
  listPRComments _ := Except.ok { all := [] }
  getIssueTimeline _ := Except.ok []

/-- C1 witness fixture: the classification fetch for number 7 succeeds with
an empty (null) payload. -/
def ghC1null : GhClient where
  getPR _ := Except.error "missing stub PR"
  getIssue n := if n = 7 then Except.ok none else Except.error "missing stub issue"
  listPRComments _ := Except.ok { all := [] }
  getIssueTimeline _ := Except.ok []

/-- C3 witness oracle: every page answers HTTP 500. -/
def c3oracle : RawOracle := fun _ _ =>
  Except.ok { status := some 500, headers := [], body := Json.arr [] }

/-- C4 counterexample runner: a rate-limited first attempt, then a normal
response. -/
def c4Runner0 : Nat → RunnerResult := fun i =>
  if i = 0 then { exitCode := 0, stdout := "first", stderr := "", timedOut := false }
  else { exitCode := 0, stdout := "second", stderr := "", timedOut := false }

/-- C4 counterexample parse: the first capture is a 429 with retry-after 0,
the second a plain 200. -/
def c4Parse0 : String → Except String ParsedResp := fun s =>
  if s = "first" then
    Except.ok { status := some 429, headers := [("retry-after", "0")], body := Json.null }
  else Except.ok { status := some 200, headers := [], body := Json.null }

/-- C4 witness runner: as the counterexample but with retry-after 3. -/
def c4RunnerA : Nat → RunnerResult := fun i =>
  if i = 0 then { exitCode := 0, stdout := "limited", stderr := "", timedOut := false }
  else { exitCode := 0, stdout := "fine", stderr := "", timedOut := false }

/-- C4 witness parse. -/
def c4ParseA : String → Except String ParsedResp := fun s =>
  if s = "limited" then
    Except.ok { status := some 429, headers := [("retry-after", "3")], body := Json.null }
  else Except.ok { status := some 200, headers := [], body := Json.null }

/-- C5 counterexample oracle: a successful response with an empty body
(decoded null). -/
def c5oracleNull : RawOracle := fun _ _ =>
  Except.ok { status := some 204, headers := [], body := Json.null }

/-- C5 witness oracle: a successful response with a truthy body. -/
def c5oracleVal : RawOracle := fun _ _ =>
  Except.ok { status := some 200, headers := [],
              body := Json.obj [("number", Json.num 5)] }

/-- C10 witness oracle: a successful response with an object body. -/
def c10oracle : RawOracle := fun _ _ =>
  Except.ok { status := some 200, headers := [],
              body := Json.obj [("fresh", Json.bool true)] }

/-- C8 fixture: root PR 1 references issue 2; issue 2 was closed by PR 3;
PR 3 references issue 4; issue 4 was closed by PRs 5 and 6, exceeding a
layer-2 closing budget of 1. -/
def ghC8 : GhClient where
  getPR n :=
    if n = 1 then Except.ok (some { title := some "Root", body := some "see #2" })
    else if n = 3 then Except.ok (some { title := some "Closer", body := some "see #4" })
    else Except.error "missing stub PR"
  getIssue n :=
    if n = 2 then Except.ok (some { pull_request := false })
    else if n = 4 then Except.ok (some { pull_request := false })
    else Except.error "missing stub issue"
  listPRComments _ := Except.ok { all := [] }
  getIssueTimeline n :=
    if n = 2 then
      Except.ok [some { typename := "ClosedEvent",
                        closer := some { typename := "PullRequest", number := some 3 } }]
    else if n = 4 then
      Except.ok [some { typename := "ClosedEvent",
                        closer := some { typename := "PullRequest", number := some 5 } },
                 some { typename := "ClosedEvent",
                        closer := some { typename := "PullRequest", number := some 6 } }]
    else Except.ok []

/-- C9 witness fixture, mirroring the repository's builder test: root PR 10
references issue 1 and PR 2; issue 1 closed by PR 20; PR 20 references
issue 3; issue 3 closed by PR 30. -/
def ghC9 : GhClient where
  getPR n :=
    if n = 10 then
      Except.ok (some { title := some "Root", body := some "Fixes #1 and refs #2",
                        html_url := some "u10", state := some "open" })
    else if n = 20 then
      Except.ok (some { title := some "Closer", body := some "Follow-up for #3",
                        html_url := some "u20", merged_at := some "2020-01-01T00:00:00Z",
                        state := some "closed" })
    else if n = 30 then
      Except.ok (some { title := some "L2 closer", body := some "",
                        html_url := some "u30", state := some "closed" })
    else Except.error "missing stub PR"
  getIssue n :=
    if n = 1 then Except.ok (some { pull_request := false })
    else if n = 2 then Except.ok (some { pull_request := true })
    else if n = 3 then Except.ok (some { pull_request := false })
    else Except.error "missing stub issue"
  listPRComments n :=
    if n = 10 then Except.ok { all := [some { body := some "extra mention octo/hello#1" }] }
    else if n = 20 then Except.ok { all := [some { body := some "comment mentions #3 too" }] }
    else Except.ok { all := [] }
  getIssueTimeline n :=
    if n = 1 then
      Except.ok [some { typename := "ClosedEvent",
                        closer := some { typename := "PullRequest", number := some 20 } }]
    else if n = 3 then
      Except.ok [some { typename := "ClosedEvent",
                        closer := some { typename := "PullRequest", number := some 30 } }]
    else Except.ok []

/-- C1 witness state: an empty build state. -/
def c1state : BuildState :=
  { graph := { rootId := "pr:octo/hello#1", nodes := [], edges := [],
               budgets := { maxLayer1References := 10, maxClosingPrsPerIssue := 5,
                            maxLayer2ReferencesPerPr := 10, maxLayer2ClosingPrsPerIssue := 5 },
               stats := {} },
    kindCache := [] }

/-- The runner attempt at index i completes cleanly (no timeout, no fatal
exit with empty stdout) and its stdout parses to p. -/
def attemptParses (runner : Nat → RunnerResult)
    (parseFn : String → Except String ParsedResp) (i : Nat) (p : ParsedResp) :
    Prop :=
  (runner i).timedOut = false ∧
  ((runner i).exitCode = 0 ∨ (runner i).stdout ≠ "") ∧
  parseFn (runner i).stdout = Except.ok p

/-- Every edge endpoint of the graph is a present node key. -/
def edgeKeysOk (g : RefGraph) : Prop :=
  ∀ e ∈ g.edges, nodesHasKey g.nodes e.fromId = true ∧
    nodesHasKey g.nodes e.toId = true

/-- Decidable form of the edge-endpoint invariant of claim C9. -/
def edgesClosedB (g : RefGraph) : Bool :=
  g.edges.all (fun e => nodesHasKey g.nodes e.fromId && nodesHasKey g.nodes e.toId)

/-- Node keys of the first graph all persist in the second. -/
def keysMono (g g2 : RefGraph) : Prop :=
  ∀ k, nodesHasKey g.nodes k = true → nodesHasKey g2.nodes k = true

/-- The graph built over the C9 fixture, used as the concrete witness
instance of the invariant. -/
def c9Graph : RefGraph :=
  match buildReferenceGraph ghC9 "octo" "hello" 10 {} with
  | Except.ok g => g
  | Except.error _ =>
      { rootId := "", nodes := [], edges := [],
        budgets := { maxLayer1References := 0, maxClosingPrsPerIssue := 0,
                     maxLayer2ReferencesPerPr := 0, maxLayer2ClosingPrsPerIssue := 0 },
        stats := {} }

/-
Theorems. Helper lemmas come first inside each group; the claim theorems
are named after their claim ids.
-/

set_option maxRecDepth 4000 in
/-- C2: evaluation of cacheKey at the failing input. Two rest-search parts
objects that differ only in the nested params query (octoterm alpha versus
octoterm beta) receive the SAME cache key, because the array replacer built
from the sorted top-level keys drops every nested params field from the
serialization; the plain serializations differ, witnessing that the two
parts objects have different content. -/
theorem c2_cacheKey_params_collision :
    cacheKey (searchParts "octoterm alpha") = cacheKey (searchParts "octoterm beta") ∧
    stringifyPlain (searchParts "octoterm alpha") ≠
      stringifyPlain (searchParts "octoterm beta") :=
  ⟨by decide, by decide⟩

/-- C1 counterexample: a graph build whose only failing fetch is the
classification getIssue call aborts with that error instead of classifying
the number as unknown, refuting that a classification fetch failure never
aborts the graph-build call. -/
theorem c1_counterexample :
    buildReferenceGraph ghC1bad "octo" "hello" 1 {} =
      Except.error "GitHub API error 404 for /repos/octo/hello/issues/5" := rfl

/-- C1 (amended): classifying a referenced number fetches its issue
payload; a fetch that succeeds with a missing (null or non-object) payload
classifies as unknown without failing, and the classification loops then
skip the number entirely (no node, no edge, no expansion); but a fetch that
throws propagates its error and aborts the build. -/
theorem c1_unknown_not_expanded
    (gh : GhClient) (st : BuildState) (n : Nat)
    (hmiss : lookupKind n st.kindCache = none) :
    (gh.getIssue n = Except.ok none →
      getNumberKind gh st n =
        Except.ok (NumKind.unknown,
          { graph := bumpGetIssue st.graph,
            kindCache := st.kindCache ++ [(n, NumKind.unknown)] })) ∧
    (∀ e, gh.getIssue n = Except.error e →
      getNumberKind gh st n = Except.error e) ∧
    (∀ st1 rest issues prs,
      getNumberKind gh st n = Except.ok (NumKind.unknown, st1) →
      classifyLayer1 gh (n :: rest) st issues prs =
        classifyLayer1 gh rest st1 issues prs) ∧
    (∀ st1 owner repo pid rest l2i l2p,
      getNumberKind gh st n = Except.ok (NumKind.unknown, st1) →
      classifyLayer2Refs gh owner repo pid (n :: rest) st l2i l2p =
        classifyLayer2Refs gh owner repo pid rest st1 l2i l2p) := by
  refine ⟨?_, ?_, ?_, ?_⟩
  · intro hok
    unfold getNumberKind
    rw [hmiss, hok]
  · intro e herr
    unfold getNumberKind
    rw [hmiss, herr]
  · intro st1 rest issues prs hk
    conv_lhs => rw [classifyLayer1, hk]
    rfl
  · intro st1 owner repo pid rest l2i l2p hk
    conv_lhs => rw [classifyLayer2Refs, hk]
    rfl

/-- C1 witness: the amended theorem applied at the concrete fixture whose
getIssue for number 7 answers with a null payload. -/
theorem c1_witness :
    getNumberKind ghC1null c1state 7 =
      Except.ok (NumKind.unknown,
        { graph := bumpGetIssue c1state.graph,
          kindCache := c1state.kindCache ++ [(7, NumKind.unknown)] }) :=
  (c1_unknown_not_expanded ghC1null c1state 7 rfl).1 rfl

set_option maxRecDepth 8000 in
/-- C8: evaluation at the failing input. With a layer-2 closing budget of 1
and a layer-2 issue (number 4) whose uncapped closing list is [5, 6]
(length 2, exceeding the budget), the finished build leaves
stats.truncated.layer2ClosingPrs at 0 and instead increments the shared
closingPrs counter — the counter corresponding to the layer-2 closing step
is never set. -/
theorem c8_layer2_truncation_miscounted :
    (buildReferenceGraph ghC8 "o" "r" 1
        { maxLayer2ClosingPrsPerIssue := some 1 }).toOption.map
        (fun g => g.stats.truncated) =
      some { layer1Refs := false, closingPrs := 1, layer2Refs := 0,
             layer2ClosingPrs := 0 } ∧
    (ghC8.getIssueTimeline 4).toOption.map (fun tl => (timelinePRNumbers tl).1) =
      some [5, 6] :=
  ⟨by decide, by decide⟩

/-- A clean, non-retried iteration of the backoff loop returns its parsed
response with one more runner call and no sleep: either the response is not
rate-limited, or this is already the second attempt. -/
theorem backoffGo_step_done (runner : Nat → RunnerResult)
    (parseFn : String → Except String ParsedResp) (maxB nowE : Int)
    (attempt rem : Nat) (tr : BackoffTrace) (p : ParsedResp)
    (h : attemptParses runner parseFn attempt p)
    (hdone : isRateLimited p.status p.headers = false ∨ attempt = 1) :
    backoffGo runner parseFn maxB nowE attempt (rem + 1) tr =
      (Except.ok p, { tr with runnerCalls := tr.runnerCalls + 1 }) := by
  obtain ⟨ht, he, hp⟩ := h
  have hguard : (decide ((runner attempt).exitCode ≠ 0) &&
      decide ((runner attempt).stdout = "")) = false := by
    rcases he with he | he <;> simp [he]
  rcases hdone with hd | hd
  · simp [backoffGo, ht, hp, hguard, hd]
    tauto
  · subst hd
    simp [backoffGo, ht, hp, hguard]
    tauto

/-- A rate-limited first iteration with a parseable retry-after header
records one sleep of the clamped wait when it is positive, none when it is
not, and proceeds to the second attempt. -/
theorem backoffGo_step_limited (runner : Nat → RunnerResult)
    (parseFn : String → Except String ParsedResp) (maxB nowE : Int)
    (rem : Nat) (tr : BackoffTrace) (p : ParsedResp) (w : Int)
    (h : attemptParses runner parseFn 0 p)
    (hrl : isRateLimited p.status p.headers = true)
    (hra : headerNum p.headers "retry-after" = some w) :
    backoffGo runner parseFn maxB nowE 0 (rem + 1) tr =
      backoffGo runner parseFn maxB nowE 1 rem
        (if 0 < min w maxB then
          { tr with runnerCalls := tr.runnerCalls + 1,
                    sleepsMs := tr.sleepsMs ++ [min w maxB * 1000] }
         else { tr with runnerCalls := tr.runnerCalls + 1 }) := by
  obtain ⟨ht, he, hp⟩ := h
  have hguard : (decide ((runner 0).exitCode ≠ 0) &&
      decide ((runner 0).stdout = "")) = false := by
    rcases he with he | he <;> simp [he]
  simp only [backoffGo, ht, hp, hguard, hrl, hra, Bool.false_eq_true, if_false,
    Bool.not_true, Bool.false_or, decide_eq_true_eq]
  simp [gt_iff_lt]

/-- A rate-limited first iteration with neither wait header parseable
returns the rate-limited response itself after a single runner call. -/
theorem backoffGo_step_noinfer (runner : Nat → RunnerResult)
    (parseFn : String → Except String ParsedResp) (maxB nowE : Int)
    (rem : Nat) (tr : BackoffTrace) (p : ParsedResp)
    (h : attemptParses runner parseFn 0 p)
    (hrl : isRateLimited p.status p.headers = true)
    (hra : headerNum p.headers "retry-after" = none)
    (hre : headerNum p.headers "x-ratelimit-reset" = none) :
    backoffGo runner parseFn maxB nowE 0 (rem + 1) tr =
      (Except.ok p, { tr with runnerCalls := tr.runnerCalls + 1 }) := by
  obtain ⟨ht, he, hp⟩ := h
  have hguard : (decide ((runner 0).exitCode ≠ 0) &&
      decide ((runner 0).stdout = "")) = false := by
    rcases he with he | he <;> simp [he]
  simp [backoffGo, ht, hp, hguard, hrl, hra, hre]
  tauto

/-- C4 (amended): in the embedded retry loop, with the rate-limited test
being status 429 or status 403 with a zero remaining-quota header: a clean
non-rate-limited first response returns immediately with one runner call
and no sleep; a rate-limited first response with a parseable retry-after w
makes exactly one sleep of min(w, maxBackoff) seconds when that value is
positive and no sleep otherwise, and the second attempt result is
returned unconditionally after exactly two runner calls; a rate-limited
first response with neither retry-after nor reset epoch parseable is
returned as-is with one runner call and no sleep. -/
theorem c4_rate_limit_retry (runner : Nat → RunnerResult)
    (parseFn : String → Except String ParsedResp) (maxB nowE : Int) :
    (∀ p0, attemptParses runner parseFn 0 p0 →
      isRateLimited p0.status p0.headers = false →
      executeWithBackoff runner parseFn maxB nowE =
        (Except.ok p0, { sleepsMs := [], runnerCalls := 1 })) ∧
    (∀ p0 p1 w, attemptParses runner parseFn 0 p0 →
      isRateLimited p0.status p0.headers = true →
      headerNum p0.headers "retry-after" = some w →
      attemptParses runner parseFn 1 p1 →
      executeWithBackoff runner parseFn maxB nowE =
        (Except.ok p1,
         { sleepsMs := if 0 < min w maxB then [min w maxB * 1000] else [],
           runnerCalls := 2 })) ∧
    (∀ p0, attemptParses runner parseFn 0 p0 →
      isRateLimited p0.status p0.headers = true →
      headerNum p0.headers "retry-after" = none →
      headerNum p0.headers "x-ratelimit-reset" = none →
      executeWithBackoff runner parseFn maxB nowE =
        (Except.ok p0, { sleepsMs := [], runnerCalls := 1 })) := by
  refine ⟨?_, ?_, ?_⟩
  · intro p0 h hrl
    exact backoffGo_step_done runner parseFn maxB nowE 0 1
      { sleepsMs := [], runnerCalls := 0 } p0 h (Or.inl hrl)
  · intro p0 p1 w h0 hrl hra h1
    show backoffGo runner parseFn maxB nowE 0 (1 + 1)
      { sleepsMs := [], runnerCalls := 0 } = _
    rw [backoffGo_step_limited runner parseFn maxB nowE 1
      { sleepsMs := [], runnerCalls := 0 } p0 w h0 hrl hra]
    by_cases hw : 0 < min w maxB
    · rw [if_pos hw]
      show backoffGo runner parseFn maxB nowE 1 (0 + 1) _ = _
      rw [backoffGo_step_done runner parseFn maxB nowE 1 0 _ p1 h1 (Or.inr rfl)]
      rw [if_pos hw]
      rfl
    · rw [if_neg hw]
      show backoffGo runner parseFn maxB nowE 1 (0 + 1) _ = _
      rw [backoffGo_step_done runner parseFn maxB nowE 1 0 _ p1 h1 (Or.inr rfl)]
      rw [if_neg hw]
  · intro p0 h hrl hra hre
    exact backoffGo_step_noinfer runner parseFn maxB nowE 1
      { sleepsMs := [], runnerCalls := 0 } p0 h hrl hra hre

/-- C4 counterexample: with a first response that is rate-limited and
carries retry-after 0 and a normal second response, the loop makes NO sleep
at all (the sleep trace is empty) while the claim requires exactly one
sleep of min(retry-after, maxBackoff) = 0 seconds; the second attempt is
still issued and its result returned. -/
theorem c4_counterexample :
    executeWithBackoff c4Runner0 c4Parse0 10 1000 =
      (Except.ok { status := some 200, headers := [], body := Json.null },
       { sleepsMs := [], runnerCalls := 2 }) ∧
    ([] : List Int) ≠ [min (0 : Int) 10 * 1000] :=
  ⟨rfl, by decide⟩

/-- C4 witness: the amended theorem applied to the concrete fixture with
retry-after 3 and maximum backoff 10: exactly one recorded sleep of 3000
milliseconds and the second response returned. -/
theorem c4_witness :
    executeWithBackoff c4RunnerA c4ParseA 10 1000 =
      (Except.ok { status := some 200, headers := [], body := Json.null },
       { sleepsMs := if 0 < min (3 : Int) 10 then [min (3 : Int) 10 * 1000] else [],
         runnerCalls := 2 }) :=
  (c4_rate_limit_retry c4RunnerA c4ParseA 10 1000).2.1
    { status := some 429, headers := [("retry-after", "3")], body := Json.null }
    { status := some 200, headers := [], body := Json.null }
    3 ⟨rfl, Or.inl rfl, rfl⟩ (by decide) (by decide) ⟨rfl, Or.inl rfl, rfl⟩

/-- Looking up the key just written finds the written file. -/
theorem lookupCache_setCache_self (k : String) (f : CacheFile) (c : CacheStore) :
    lookupCache k (setCache k f c) = some f := by
  induction c with
  | nil => simp [setCache, lookupCache]
  | cons kv rest ih =>
      obtain ⟨k2, f2⟩ := kv
      by_cases hk : k2 = k
      · simp [setCache, hk, lookupCache]
      · simp [setCache, hk, lookupCache, ih]

/-- C5 (amended): starting from a cache that misses the request key, a
first cached fetch that succeeds with a TRUTHY decoded value makes exactly
one transport call, and a second identical cached fetch within the TTL
window returns the same value from the cache without touching the
transport or the state at all. (For a falsy first value the cache is
bypassed on the second fetch; see the counterexample and claim C10.) -/
theorem c5_cache_idempotent (oracle : RawOracle) (repo : String) (ttl : Int)
    (method endpoint : String) (params : Option Json) (now1 now2 : Int)
    (st0 : FetchState) (v : Json) (st1 : FetchState)
    (hcold : lookupCache (restKey method endpoint params repo) st0.cache = none)
    (h1 : restRequest oracle repo (some ttl) method endpoint params true now1 st0 =
      (Except.ok v, st1))
    (htruthy : v.truthy = true)
    (hwindow : now2 - now1 ≤ ttl * 1000) :
    restRequest oracle repo (some ttl) method endpoint params true now2 st1 =
      (Except.ok v, st1) ∧
    st1.rawCalls = st0.rawCalls + 1 := by
  simp only [restRequest, readJsonCache, hcold, if_true] at h1
  rw [restRequestFresh] at h1
  cases hoc : oracle method (restFullEndpoint endpoint params) with
  | error e =>
      rw [hoc] at h1
      simp at h1
  | ok resp =>
      rw [hoc] at h1
      by_cases hs : statusGe400 resp.status = true
      · simp [hs] at h1
      · simp only [hs, Bool.false_eq_true, if_false, if_true, Prod.mk.injEq,
          Except.ok.injEq] at h1
        obtain ⟨hv, hst⟩ := h1
        subst hv
        have hexp : ¬ (now2 - now1 > ttl * 1000) := by omega
        constructor
        · simp only [restRequest, readJsonCache, ← hst, lookupCache_setCache_self,
            hexp, if_false, if_true, htruthy]
        · rw [← hst]

/-- C5 witness: the amended theorem applied to the truthy-body oracle, at
cold state, with matching timestamps inside a 300 second TTL. -/
theorem c5_witness :
    restRequest c5oracleVal "octo/hello" (some 300) "GET" "/repos/octo/hello/pulls/5"
        none true 2000
        (restRequest c5oracleVal "octo/hello" (some 300) "GET" "/repos/octo/hello/pulls/5"
          none true 1000 { cache := [], rawCalls := 0 }).2 =
      (Except.ok (Json.obj [("number", Json.num 5)]),
       (restRequest c5oracleVal "octo/hello" (some 300) "GET" "/repos/octo/hello/pulls/5"
          none true 1000 { cache := [], rawCalls := 0 }).2) ∧
    ((restRequest c5oracleVal "octo/hello" (some 300) "GET" "/repos/octo/hello/pulls/5"
        none true 1000 { cache := [], rawCalls := 0 }).2).rawCalls = 0 + 1 :=
  c5_cache_idempotent c5oracleVal "octo/hello" 300 "GET" "/repos/octo/hello/pulls/5"
    none 1000 2000 { cache := [], rawCalls := 0 }
    (Json.obj [("number", Json.num 5)]) _ rfl rfl rfl (by omega)

/-- C5 counterexample: with a transport whose successful response has an
empty body (decoded null), two sequential cached fetches of the same
resource within the TTL window issue TWO transport calls, not one: the
null value written by the first fetch is falsy and is never served back. -/
theorem c5_counterexample :
    ((restRequest c5oracleNull "octo/hello" (some 300) "GET" "/repos/octo/hello/pulls/7"
        none true 2000
        (restRequest c5oracleNull "octo/hello" (some 300) "GET" "/repos/octo/hello/pulls/7"
          none true 1000 { cache := [], rawCalls := 0 }).2).2).rawCalls = 2 ∧
    (2 : Nat) ≠ 1 :=
  ⟨rfl, by decide⟩

/-- C10: a fresh, unexpired cache entry whose stored value is falsy is
never served: the cached fetch behaves as a miss, issues one transport
request, returns the transport's decoded body and overwrites the entry. -/
theorem c10_falsy_cache_not_served (oracle : RawOracle) (repo : String) (ttl : Int)
    (method endpoint : String) (params : Option Json) (nowW nowR : Int)
    (st : FetchState) (v : Json) (resp : ParsedResp)
    (hentry : lookupCache (restKey method endpoint params repo) st.cache =
      some { value := v, mtimeMs := nowW })
    (hfalsy : v.truthy = false)
    (hfresh : nowR - nowW ≤ ttl * 1000)
    (horacle : oracle method (restFullEndpoint endpoint params) = Except.ok resp)
    (hstatus : statusGe400 resp.status = false) :
    restRequest oracle repo (some ttl) method endpoint params true nowR st =
      (Except.ok resp.body,
       { cache := setCache (restKey method endpoint params repo)
           { value := resp.body, mtimeMs := nowR } st.cache,
         rawCalls := st.rawCalls + 1 }) := by
  have hexp : ¬ (nowR - nowW > ttl * 1000) := by omega
  simp only [restRequest, readJsonCache, hentry, if_true, hexp, if_false, hfalsy,
    Bool.false_eq_true, restRequestFresh, horacle, hstatus]

/-- C10 witness: the theorem applied to a concrete state holding a fresh
null entry for the request key and the object-body oracle. -/
theorem c10_witness :
    restRequest c10oracle "octo/hello" (some 300) "GET" "/repos/octo/hello/pulls/9"
        none true 2000
        { cache := [(restKey "GET" "/repos/octo/hello/pulls/9" none "octo/hello",
                     { value := Json.null, mtimeMs := 1000 })], rawCalls := 3 } =
      (Except.ok (Json.obj [("fresh", Json.bool true)]),
       { cache := setCache (restKey "GET" "/repos/octo/hello/pulls/9" none "octo/hello")
           { value := Json.obj [("fresh", Json.bool true)], mtimeMs := 2000 }
           [(restKey "GET" "/repos/octo/hello/pulls/9" none "octo/hello",
             { value := Json.null, mtimeMs := 1000 })],
         rawCalls := 3 + 1 }) :=
  c10_falsy_cache_not_served c10oracle "octo/hello" 300 "GET"
    "/repos/octo/hello/pulls/9" none 1000 2000 _ Json.null
    { status := some 200, headers := [], body := Json.obj [("fresh", Json.bool true)] }
    (by simp [lookupCache]) rfl (by omega) rfl rfl

/-- The pagination loop never writes the cache: its state effect is only
the transport call count. -/
theorem restPaginateLoop_cache_const (oracle : RawOracle) (endpoint : String) :
    ∀ (fuel : Nat) (url : String) (out : List Json) (st : FetchState),
    ((restPaginateLoop oracle endpoint fuel url out st).2).cache = st.cache := by
  intro fuel
  induction fuel with
  | zero => intro url out st; rfl
  | succ n ih =>
      intro url out st
      rw [restPaginateLoop]
      cases hoc : oracle "GET" url with
      | error e => simp
      | ok resp =>
          by_cases hs : statusGe400 resp.status = true
          · simp [hs]
          · cases hb : resp.body <;> simp [hs, hb] <;>
              cases hnext : lookupStr "next" (parseLinkHeader (lookupStr "link" resp.headers)) <;>
              simp [hnext, ih]

/-- A page answered with a status at or above 400 fails the whole loop at
that page: the items accumulated so far are discarded, only the call count
advances. -/
theorem restPaginateLoop_fails_on_400 (oracle : RawOracle) (endpoint : String)
    (fuel : Nat) (url : String) (out : List Json) (st : FetchState)
    (resp : ParsedResp)
    (hoc : oracle "GET" url = Except.ok resp)
    (hs : statusGe400 resp.status = true) :
    restPaginateLoop oracle endpoint (fuel + 1) url out st =
      (Except.error ("GitHub API error " ++ statusStr resp.status ++ " for " ++ endpoint),
       { st with rawCalls := st.rawCalls + 1 }) := by
  rw [restPaginateLoop]
  simp [hoc, hs]

/-- The cache-miss pagination path leaves the cache untouched whenever its
result is an error. -/
theorem restPaginateFresh_error_no_write (oracle : RawOracle) (endpoint : String)
    (params : Json) (useCache : Bool) (nowMs : Int) (st : FetchState)
    (key : String) (e : String) :
    (restPaginateFresh oracle endpoint params useCache nowMs st key).1 =
      Except.error e →
    ((restPaginateFresh oracle endpoint params useCache nowMs st key).2).cache =
      st.cache := by
  have hc := restPaginateLoop_cache_const oracle endpoint 200
    (paginateUrl0 endpoint params) [] st
  simp only [restPaginateFresh]
  generalize hres : restPaginateLoop oracle endpoint 200
    (paginateUrl0 endpoint params) [] st = res at hc ⊢
  obtain ⟨r, stL⟩ := res
  cases r with
  | error e2 => intro _; simpa using hc
  | ok v => intro herr; simp at herr

/-- C3: REST array pagination on any failing page. Any page whose status is
at or above 400 makes the whole pagination loop fail with an error right
there, discarding every item accumulated from earlier pages; on a cache
miss the paginated call returns exactly the loop's error; and whenever the
paginated call errors, the cache is left untouched (the write only happens
after the loop has fully succeeded). -/
theorem c3_pagination_error_aborts_no_cache (oracle : RawOracle) (repo : String)
    (ttl : Option Int) (endpoint : String) (params : Json) (nowMs : Int) :
    (∀ fuel url out st resp, oracle "GET" url = Except.ok resp →
      statusGe400 resp.status = true →
      restPaginateLoop oracle endpoint (fuel + 1) url out st =
        (Except.error ("GitHub API error " ++ statusStr resp.status ++ " for " ++ endpoint),
         { st with rawCalls := st.rawCalls + 1 })) ∧
    (∀ st e stE, lookupCache (paginateKey endpoint params repo) st.cache = none →
      restPaginateLoop oracle endpoint 200 (paginateUrl0 endpoint params) [] st =
        (Except.error e, stE) →
      restPaginateArray oracle repo ttl endpoint params true nowMs st =
        (Except.error e, stE)) ∧
    (∀ st e useCache,
      (restPaginateArray oracle repo ttl endpoint params useCache nowMs st).1 =
        Except.error e →
      ((restPaginateArray oracle repo ttl endpoint params useCache nowMs st).2).cache =
        st.cache) := by
  refine ⟨?_, ?_, ?_⟩
  · intro fuel url out st resp hoc hs
    exact restPaginateLoop_fails_on_400 oracle endpoint fuel url out st resp hoc hs
  · intro st e stE hmiss hloop
    simp only [restPaginateArray, readJsonCache, hmiss, if_true, restPaginateFresh, hloop]
  · intro st e useCache herr
    simp only [restPaginateArray] at herr ⊢
    cases hc : (if useCache = true then
        readJsonCache st.cache (paginateKey endpoint params repo) ttl nowMs
      else none) with
    | some v =>
        rw [hc] at herr
        by_cases hv : v.truthy = true
        · simp [hv]
        · simp only [hv, Bool.false_eq_true, if_false] at herr ⊢
          exact restPaginateFresh_error_no_write oracle endpoint params useCache nowMs st
            (paginateKey endpoint params repo) e herr
    | none =>
        rw [hc] at herr
        exact restPaginateFresh_error_no_write oracle endpoint params useCache nowMs st
          (paginateKey endpoint params repo) e herr

/-- C3 witness: the theorem applied to the oracle whose every page answers
HTTP 500: the first page already fails the loop with the endpoint's error
and a single transport call. -/
theorem c3_witness :
    restPaginateLoop c3oracle "/x" (0 + 1) "/x?per_page=100" []
        { cache := [], rawCalls := 0 } =
      (Except.error "GitHub API error 500 for /x",
       { cache := [], rawCalls := 0 + 1 }) :=
  (c3_pagination_error_aborts_no_cache c3oracle "octo/hello" none "/x"
      (Json.obj []) 0).1 0 "/x?per_page=100" [] { cache := [], rawCalls := 0 }
    { status := some 500, headers := [], body := Json.arr [] } rfl rfl

/-- Char order agrees with the order of the code points. -/
theorem char_le_iff_toNat (a b : Char) : a ≤ b ↔ a.toNat ≤ b.toNat := by
  rw [Char.le_def, UInt32.le_def, BitVec.le_def]
  exact Iff.rfl

/-- Characters with equal code points are equal. -/
theorem char_eq_of_toNat_eq {a b : Char} (h : a.toNat = b.toNat) : a = b := by
  apply Char.eq_of_val_eq
  apply UInt32.eq_of_toBitVec_eq
  exact BitVec.eq_of_toNat_eq h

/-- Code point of Char.ofNat below the surrogate range. -/
theorem toNat_ofNat_char (n : Nat) (h : n < 55296) : (Char.ofNat n).toNat = n := by
  have hv : n.isValidChar := Or.inl h
  simp [Char.ofNat, hv, Char.ofNatAux, Char.toNat, UInt32.toNat, BitVec.toNat_ofNatLt]

/-- asciiLower on an ASCII uppercase letter. -/
theorem asciiLower_of_upper (c : Char) (h1 : 65 ≤ c.toNat) (h2 : c.toNat ≤ 90) :
    asciiLower c = Char.ofNat (c.toNat + 32) := by
  unfold asciiLower
  rw [if_pos]
  rw [Bool.and_eq_true, decide_eq_true_eq, decide_eq_true_eq]
  constructor
  · rw [char_le_iff_toNat]
    exact h1
  · rw [char_le_iff_toNat]
    exact h2

/-- asciiLower fixes everything that is not an ASCII uppercase letter. -/
theorem asciiLower_of_not_upper (c : Char)
    (h : ¬(65 ≤ c.toNat ∧ c.toNat ≤ 90)) : asciiLower c = c := by
  unfold asciiLower
  rw [if_neg]
  rw [Bool.and_eq_true, decide_eq_true_eq, decide_eq_true_eq,
    char_le_iff_toNat, char_le_iff_toNat]
  exact h

/-- The result of asciiLower is never an ASCII uppercase letter. -/
theorem asciiLower_not_upper (c : Char) :
    ¬(65 ≤ (asciiLower c).toNat ∧ (asciiLower c).toNat ≤ 90) := by
  by_cases h : 65 ≤ c.toNat ∧ c.toNat ≤ 90
  · rw [asciiLower_of_upper c h.1 h.2, toNat_ofNat_char (c.toNat + 32) (by omega)]
    omega
  · rw [asciiLower_of_not_upper c h]
    exact h

/-- asciiLower is idempotent. -/
theorem asciiLower_idem (c : Char) : asciiLower (asciiLower c) = asciiLower c :=
  asciiLower_of_not_upper _ (asciiLower_not_upper c)

/-- lowerStr is idempotent. -/
theorem lowerStr_idem (s : String) : lowerStr (lowerStr s) = lowerStr s := by
  unfold lowerStr
  refine congrArg String.mk ?_
  show ((s.data.map asciiLower).map asciiLower) = s.data.map asciiLower
  rw [List.map_map]
  exact List.map_congr_left (fun a _ => asciiLower_idem a)

/-- Membership after a setEntry update. -/
theorem mem_setEntry {k v : String} {k2 v2 : String}
    {acc : List (String × String)} (h : (k, v) ∈ setEntry k2 v2 acc) :
    k = k2 ∨ (k, v) ∈ acc := by
  induction acc with
  | nil =>
      simp [setEntry] at h
      exact Or.inl h.1
  | cons kv rest ih =>
      obtain ⟨ka, va⟩ := kv
      by_cases hk : ka = k2
      · simp [setEntry, hk] at h
        rcases h with h | h
        · exact Or.inl h.1
        · exact Or.inr (List.mem_cons_of_mem _ h)
      · simp only [setEntry, hk, if_false] at h
        rcases List.mem_cons.mp h with h | h
        · exact Or.inr (List.mem_cons.mpr (Or.inl h))
        · rcases ih h with h2 | h2
          · exact Or.inl h2
          · exact Or.inr (List.mem_cons_of_mem _ h2)

/-- Every key in the header fold is lower-cased. -/
theorem headers_fold_lower (lines : List (List Char)) :
    ∀ (acc : List (String × String)),
    (∀ kv ∈ acc, kv.1 = lowerStr kv.1) →
    ∀ kv ∈ lines.foldl (fun acc line =>
      match parseHeaderLine line with
      | none => acc
      | some (nm, v) => setEntry (lowerStr nm) v acc) acc,
    kv.1 = lowerStr kv.1 := by
  induction lines with
  | nil => intro acc hacc kv hkv; exact hacc kv hkv
  | cons line rest ih =>
      intro acc hacc kv hkv
      simp only [List.foldl_cons] at hkv
      cases hpl : parseHeaderLine line with
      | none =>
          rw [hpl] at hkv
          exact ih acc hacc kv hkv
      | some nv =>
          obtain ⟨nm, v⟩ := nv
          rw [hpl] at hkv
          refine ih _ ?_ kv hkv
          intro kv2 hkv2
          obtain ⟨k2, v2⟩ := kv2
          rcases mem_setEntry hkv2 with h | h
          · simpa [h] using (lowerStr_idem nm).symm
          · exact hacc _ h

/-- A pattern is a prefix of itself followed by anything. -/
theorem startsWith_append_self (pat b : List Char) :
    startsWith pat (pat ++ b) = true := by
  induction pat with
  | nil => rfl
  | cons c rest ih => simp [startsWith, ih]

/-- A prefix match at the head resolves findSub to index 0. -/
theorem findSub_zero {pat l : List Char} (h : startsWith pat l = true) :
    findSub pat l = some 0 := by
  cases l with
  | nil => simp [findSub, h]
  | cons c rest => simp [findSub, h]

/-- findSub finds the boundary at the end of a prefix that contains no
earlier occurrence. -/
theorem findSub_at (pat : List Char) :
    ∀ (h b : List Char),
    (∀ j, j < h.length → startsWith pat ((h ++ pat ++ b).drop j) = false) →
    findSub pat (h ++ pat ++ b) = some h.length := by
  intro h
  induction h with
  | nil =>
      intro b _
      simp only [List.nil_append]
      exact findSub_zero (startsWith_append_self pat b)
  | cons c h2 ih =>
      intro b hno
      have h0 : startsWith pat (c :: (h2 ++ pat ++ b)) = false := by
        have := hno 0 (by simp)
        simpa using this
      have hrec := ih b (fun j hj => by
        have := hno (j + 1) (by simp; omega)
        simpa using this)
      simp only [List.cons_append, findSub, List.append_eq, h0, Bool.false_eq_true,
        if_false]
      rw [hrec]
      rfl

/-- findSub misses when no position starts with the pattern. -/
theorem findSub_none (pat : List Char) :
    ∀ (l : List Char), (∀ j, startsWith pat (l.drop j) = false) →
    findSub pat l = none := by
  intro l
  induction l with
  | nil =>
      intro hno
      have := hno 0
      simp only [List.drop_nil] at this
      simp [findSub, this]
  | cons c rest ih =>
      intro hno
      have h0 := hno 0
      simp only [List.drop_zero] at h0
      have hrec := ih (fun j => by simpa using hno (j + 1))
      simp [findSub, h0, hrec]

/-- spanBy splits exactly at a point where the predicate flips. -/
theorem spanBy_append (p : Char → Bool) :
    ∀ (a b : List Char), (∀ c ∈ a, p c = true) →
    (∀ c, b.head? = some c → p c = false) →
    spanBy p (a ++ b) = (a, b) := by
  intro a
  induction a with
  | nil =>
      intro b _ hb
      cases b with
      | nil => rfl
      | cons c rest => simp [spanBy, hb c rfl]
  | cons c rest ih =>
      intro b ha hb
      have hc : p c = true := ha c (by simp)
      simp only [List.cons_append, spanBy, List.append_eq, hc, if_true]
      rw [ih b (fun x hx => ha x (by simp [hx])) hb]

/-- Take of the length of a prefix recovers the prefix. -/
theorem take_append_self (a b : List Char) : (a ++ b).take a.length = a := by
  induction a with
  | nil => rfl
  | cons c rest ih => simp [ih]

/-- Drop of the length of a prefix leaves the suffix. -/
theorem drop_append_self (a b : List Char) : (a ++ b).drop a.length = b := by
  induction a with
  | nil => rfl
  | cons c rest ih => simp [ih]

/-- Drop beyond a prefix drops into the suffix. -/
theorem drop_append_plus (a b : List Char) (n : Nat) :
    (a ++ b).drop (a.length + n) = b.drop n := by
  induction a with
  | nil => simp
  | cons c rest ih =>
      simp only [List.cons_append, List.length_cons]
      rw [Nat.succ_add]
      simpa using ih

/-- A digit character is not JavaScript whitespace. -/
theorem isDigit_not_jsWs {c : Char} (h : c.isDigit = true) : isJsWs c = false := by
  simp only [Char.isDigit, Bool.and_eq_true, decide_eq_true_eq] at h
  by_contra hws
  rw [Bool.not_eq_false] at hws
  simp only [isJsWs, Bool.or_eq_true, decide_eq_true_eq] at hws
  rcases hws with ((((h2 | h2) | h2) | h2) | h2) | h2 <;> subst h2 <;>
    exact absurd h (by decide)

/-- Every key of a parsed header block is lower-cased. -/
theorem parseHeaderBlock_lower (ht : List Char) :
    ∀ kv ∈ (parseHeaderBlock ht).2, kv.1 = lowerStr kv.1 := by
  intro kv hkv
  exact headers_fold_lower ((splitLines ht).drop 1) [] (by simp) kv hkv

/-- The status scan succeeds on a line that starts with the literal and a
well-formed run of non-whitespace, whitespace and digits. -/
theorem findStatus_pos (v ws ds rest : List Char)
    (hv : v ≠ []) (hvn : ∀ c ∈ v, isJsWs c = false)
    (hw : ws ≠ []) (hwn : ∀ c ∈ ws, isJsWs c = true)
    (hd : ds ≠ []) (hdn : ∀ c ∈ ds, c.isDigit = true)
    (hrest : ∀ c, rest.head? = some c → c.isDigit = false) :
    findStatus ('H' :: 'T' :: 'T' :: 'P' :: '/' :: (v ++ ws ++ ds ++ rest)) =
      some (natOfDigits ds) := by
  have hstart : startsWith ['H', 'T', 'T', 'P', '/']
      ('H' :: 'T' :: 'T' :: 'P' :: '/' :: (v ++ ws ++ ds ++ rest)) = true := by
    simp [startsWith]
  rw [findStatus]
  rw [hstart]
  have hspan1 : spanBy (fun c => !isJsWs c) (v ++ (ws ++ ds ++ rest)) =
      (v, ws ++ ds ++ rest) := by
    refine spanBy_append _ v (ws ++ ds ++ rest) (fun c hc => by simp [hvn c hc]) ?_
    intro c hc
    cases ws with
    | nil => exact absurd rfl hw
    | cons w ws2 =>
        simp only [List.cons_append, List.head?_cons, Option.some.injEq] at hc
        subst hc
        simp [hwn w (by simp)]
  have hspan2 : spanBy isJsWs (ws ++ (ds ++ rest)) = (ws, ds ++ rest) := by
    refine spanBy_append _ ws (ds ++ rest) (fun c hc => hwn c hc) ?_
    intro c hc
    cases ds with
    | nil => exact absurd rfl hd
    | cons d ds2 =>
        simp only [List.cons_append, List.head?_cons, Option.some.injEq] at hc
        subst hc
        exact isDigit_not_jsWs (hdn d (by simp))
  have hspan3 : takeDigits (ds ++ rest) = (ds, rest) := by
    unfold takeDigits
    refine spanBy_append _ ds rest (fun c hc => hdn c hc) ?_
    intro c hc
    exact hrest c hc
  show (match statusAfterHttp (('H' :: 'T' :: 'T' :: 'P' :: '/' ::
      (v ++ ws ++ ds ++ rest)).drop 5) with
    | some n => some n
    | none => findStatus ('T' :: 'T' :: 'P' :: '/' :: (v ++ ws ++ ds ++ rest))) =
    some (natOfDigits ds)
  have hdrop : ('H' :: 'T' :: 'T' :: 'P' :: '/' ::
      (v ++ ws ++ ds ++ rest)).drop 5 = v ++ (ws ++ (ds ++ rest)) := by
    simp [List.append_assoc]
  rw [hdrop]
  unfold statusAfterHttp
  rw [show v ++ (ws ++ (ds ++ rest)) = v ++ (ws ++ ds ++ rest) by
    simp [List.append_assoc]]
  rw [hspan1]
  simp only [List.isEmpty_iff, hv, if_false]
  rw [List.append_assoc ws ds rest, hspan2]
  simp only [hw, if_false]
  rw [hspan3]
  simp only [hd, if_false]

/-- The status scan fails on a line with no occurrence of the literal. -/
theorem findStatus_none :
    ∀ (line : List Char),
    (∀ j, startsWith ['H', 'T', 'T', 'P', '/'] (line.drop j) = false) →
    findStatus line = none := by
  intro line
  induction line with
  | nil => intro _; rfl
  | cons c rest ih =>
      intro hno
      have h0 := hno 0
      simp only [List.drop_zero] at h0
      rw [findStatus]
      rw [h0]
      exact ih (fun j => by simpa using hno (j + 1))

/-- A digit is a word character. -/
theorem isWordChar_of_isDigit {c : Char} (h : c.isDigit = true) :
    isWordChar c = true := by
  simp [isWordChar, h]

/-- A character heading a boundary-satisfying remainder is not a digit. -/
theorem boundary_head_not_digit {after : List Char} (h : boundaryOk after = true) :
    ∀ c, after.head? = some c → c.isDigit = false := by
  intro c hc
  cases after with
  | nil => simp at hc
  | cons a rest =>
      simp only [List.head?_cons, Option.some.injEq] at hc
      subst hc
      simp only [boundaryOk, Bool.not_eq_true'] at h
      by_contra hd
      rw [Bool.not_eq_false] at hd
      rw [isWordChar_of_isDigit hd] at h
      exact absurd h (by decide)

/-- spanBy decomposes its input into the run and the remainder. -/
theorem spanBy_decomp (p : Char → Bool) :
    ∀ (l r rem : List Char), spanBy p l = (r, rem) →
    l = r ++ rem ∧ ∀ c ∈ r, p c = true := by
  intro l
  induction l with
  | nil =>
      intro r rem h
      simp only [spanBy, Prod.mk.injEq] at h
      obtain ⟨h1, h2⟩ := h
      subst h1; subst h2
      simp
  | cons c rest ih =>
      intro r rem h
      cases hsp : spanBy p rest with
      | mk run rem0 =>
          by_cases hp : p c = true
          · simp only [spanBy, hp, if_true, hsp, Prod.mk.injEq] at h
            obtain ⟨h1, h2⟩ := h
            subst h1; subst h2
            obtain ⟨heq, hdig⟩ := ih run rem0 hsp
            refine ⟨by rw [heq]; simp, ?_⟩
            intro d hd
            rcases List.mem_cons.mp hd with hd | hd
            · subst hd; exact hp
            · exact hdig d hd
          · rw [Bool.not_eq_true] at hp
            simp only [spanBy, hp, Bool.false_eq_true, if_false, Prod.mk.injEq] at h
            obtain ⟨h1, h2⟩ := h
            subst h1; subst h2
            simp

/-- A digit run against a boundary-satisfying remainder is exactly what
takeDigits recovers. -/
theorem takeDigits_append {ds after : List Char}
    (hds : ∀ c ∈ ds, c.isDigit = true) (hb : boundaryOk after = true) :
    takeDigits (ds ++ after) = (ds, after) :=
  spanBy_append Char.isDigit ds after hds (boundary_head_not_digit hb)

/-- Successful shorthand hash match decomposed into its parts. -/
theorem shMatchHash_decomp {l after : List Char} {m : Nat}
    (h : shMatchHash l = some (m, after)) :
    ∃ ds, l = '#' :: (ds ++ after) ∧ ds ≠ [] ∧ (∀ c ∈ ds, c.isDigit = true) ∧
      natOfDigits ds = m ∧ boundaryOk after = true := by
  rw [shMatchHash.eq_def] at h
  split at h
  · rename_i rest
    cases hspan : takeDigits rest with
    | mk ds a =>
        rw [hspan] at h
        dsimp only at h
        by_cases hcond : (ds ≠ [] && boundaryOk a) = true
        · rw [if_pos hcond] at h
          simp only [Option.some.injEq, Prod.mk.injEq] at h
          obtain ⟨hm, ha⟩ := h
          subst ha
          simp only [ne_eq, Bool.and_eq_true, decide_eq_true_eq] at hcond
          obtain ⟨hne, hb⟩ := hcond
          obtain ⟨heq, hdig⟩ := spanBy_decomp Char.isDigit rest ds a hspan
          exact ⟨ds, by rw [heq], hne, hdig, hm, hb⟩
        · rw [if_neg hcond] at h
          exact absurd h (by simp)
  · exact absurd h (by simp)

/-- Building a successful shorthand hash match from its parts. -/
theorem shMatchHash_build {ds after : List Char} (hne : ds ≠ [])
    (hdig : ∀ c ∈ ds, c.isDigit = true) (hb : boundaryOk after = true) :
    shMatchHash ('#' :: (ds ++ after)) = some (natOfDigits ds, after) := by
  have hspan : takeDigits (ds ++ after) = (ds, after) := takeDigits_append hdig hb
  simp [shMatchHash, hspan, hne, hb]

/-- A boundaried hash occurrence decomposed into its parts. -/
theorem hashBoundHere_decomp {n : Nat} {l : List Char}
    (h : hashBoundHere n l = true) :
    ∃ ds after, l = '#' :: (ds ++ after) ∧ ds ≠ [] ∧ (∀ c ∈ ds, c.isDigit = true) ∧
      natOfDigits ds = n ∧ boundaryOk after = true := by
  rw [hashBoundHere.eq_def] at h
  split at h
  · rename_i rest
    cases hspan : takeDigits rest with
    | mk ds a =>
        rw [hspan] at h
        simp only [ne_eq, Bool.and_eq_true, decide_eq_true_eq] at h
        obtain ⟨⟨hne, hval⟩, hb⟩ := h
        obtain ⟨heq, hdig⟩ := spanBy_decomp Char.isDigit rest ds a hspan
        exact ⟨ds, a, by rw [heq], hne, hdig, hval, hb⟩
  · exact absurd h (by decide)

/-- Building a boundaried hash occurrence from its parts. -/
theorem hashBoundHere_build {n : Nat} {ds after : List Char} (hne : ds ≠ [])
    (hdig : ∀ c ∈ ds, c.isDigit = true) (hn : natOfDigits ds = n)
    (hb : boundaryOk after = true) :
    hashBoundHere n ('#' :: (ds ++ after)) = true := by
  have hspan : takeDigits (ds ++ after) = (ds, after) := takeDigits_append hdig hb
  simp [hashBoundHere, hspan, hne, hn, hb]

/-- A boundaried hash occurrence yields a successful shorthand hash match. -/
theorem shMatchHash_of_hashBound {n : Nat} {l : List Char}
    (h : hashBoundHere n l = true) :
    ∃ after, shMatchHash l = some (n, after) := by
  obtain ⟨ds, after, heq, hne, hdig, hn, hb⟩ := hashBoundHere_decomp h
  exact ⟨after, by rw [heq, shMatchHash_build hne hdig hb, hn]⟩

/-- A successful shorthand hash match is a boundaried hash occurrence. -/
theorem hashBound_of_shMatchHash {m : Nat} {l after : List Char}
    (h : shMatchHash l = some (m, after)) : hashBoundHere m l = true := by
  obtain ⟨ds, heq, hne, hdig, hm, hb⟩ := shMatchHash_decomp h
  rw [heq]
  exact hashBoundHere_build hne hdig hm hb

/-- Case analysis of a successful shorthand attempt at one position. -/
theorem shMatchAt_some_cases {bol : Bool} {c : Char} {rest after : List Char}
    {m : Nat} (h : shMatchAt bol (c :: rest) = some (m, after)) :
    (bol = true ∧ shMatchHash (c :: rest) = some (m, after)) ∨
    ((bol = true → shMatchHash (c :: rest) = none) ∧ isWordChar c = false ∧
      shMatchHash rest = some (m, after)) := by
  unfold shMatchAt at h
  cases bol with
  | true =>
      rw [if_pos rfl] at h
      cases hsh : shMatchHash (c :: rest) with
      | some r =>
          rw [hsh] at h
          simp only [Option.some.injEq] at h
          subst h
          exact Or.inl ⟨rfl, rfl⟩
      | none =>
          rw [hsh] at h
          cases hw : isWordChar c with
          | false => simp only [hw, Bool.not_false, if_true] at h
                     exact Or.inr ⟨fun _ => rfl, rfl, h⟩
          | true => simp only [hw, Bool.not_true, Bool.false_eq_true, if_false] at h
                    exact absurd h (by simp)
  | false =>
      rw [if_neg (by simp)] at h
      cases hw : isWordChar c with
      | false =>
          simp only [hw, Bool.not_false, if_true] at h
          exact Or.inr ⟨fun hcontra => absurd hcontra (by simp), rfl, h⟩
      | true =>
          simp only [hw, Bool.not_true, Bool.false_eq_true, if_false] at h
          exact absurd h (by simp)

/-- Case analysis of a failed shorthand attempt at one position. -/
theorem shMatchAt_none_cases {bol : Bool} {c : Char} {rest : List Char}
    (h : shMatchAt bol (c :: rest) = none) :
    (bol = true → shMatchHash (c :: rest) = none) ∧
    (isWordChar c = false → shMatchHash rest = none) := by
  unfold shMatchAt at h
  cases bol with
  | true =>
      rw [if_pos rfl] at h
      cases hsh : shMatchHash (c :: rest) with
      | some r => rw [hsh] at h; exact absurd h (by simp)
      | none =>
          rw [hsh] at h
          refine ⟨fun _ => rfl, fun hw => ?_⟩
          simp only [hw, Bool.not_false, if_true] at h
          exact h
  | false =>
      rw [if_neg (by simp)] at h
      refine ⟨fun hcontra => absurd hcontra (by simp), fun hw => ?_⟩
      simp only [hw, Bool.not_false, if_true] at h
      exact h

/-- A boundaried occurrence in the tail is one in the whole list. -/
theorem boundOccScan_of_tail {n : Nat} {c : Char} {rest : List Char} (bol : Bool)
    (h : boundOccScan n false rest = true) :
    boundOccScan n bol (c :: rest) = true := by
  simp [boundOccScan, h]

/-- Start-of-text weakening of the occurrence scan. -/
theorem boundOccScan_weaken {n : Nat} {l : List Char} (bol : Bool)
    (h : boundOccScan n false l = true) : boundOccScan n bol l = true := by
  cases l with
  | nil => simp [boundOccScan] at h
  | cons c rest =>
      simp only [boundOccScan, Bool.false_and, Bool.false_or, Bool.or_eq_true,
        Bool.and_eq_true] at h
      simp only [boundOccScan, Bool.or_eq_true, Bool.and_eq_true]
      rcases h with h | h
      · exact Or.inl (Or.inr h)
      · exact Or.inr h

/-- A boundaried occurrence in a suffix is one in the whole list. -/
theorem boundOccScan_append {n : Nat} (pre l2 : List Char) (bol : Bool)
    (h : boundOccScan n false l2 = true) :
    boundOccScan n bol (pre ++ l2) = true := by
  induction pre generalizing bol with
  | nil => exact boundOccScan_weaken bol h
  | cons a pre2 ih =>
      simp only [List.cons_append]
      exact boundOccScan_of_tail bol (ih false)

/-- Word characters are transparent to the non-initial occurrence scan:
no disjunct of the scan can fire inside a word-character run. -/
theorem boundOccScan_word_append {n : Nat} (ds l : List Char)
    (h : ∀ c ∈ ds, isWordChar c = true) :
    boundOccScan n false (ds ++ l) = boundOccScan n false l := by
  induction ds with
  | nil => rfl
  | cons d ds2 ih =>
      have hd : isWordChar d = true := h d (by simp)
      have hrest : ∀ c ∈ ds2, isWordChar c = true := fun c hc => h c (by simp [hc])
      simp [boundOccScan, hd, ih hrest]

/-- Soundness of the shorthand matchAll loop: every collected number has a
properly boundaried occurrence. -/
theorem shScan_sound {n : Nat} : ∀ (fuel : Nat) (bol : Bool) (l : List Char),
    n ∈ shScanF fuel bol l → boundOccScan n bol l = true := by
  intro fuel
  induction fuel with
  | zero => intro bol l h; simp [shScanF] at h
  | succ fuel ih =>
      intro bol l h
      cases l with
      | nil => simp [shScanF] at h
      | cons c rest =>
          cases hm : shMatchAt bol (c :: rest) with
          | some r =>
              obtain ⟨m, after⟩ := r
              simp only [shScanF, hm, List.mem_cons] at h
              rcases h with hnm | htail
              · subst hnm
                rcases shMatchAt_some_cases hm with ⟨hbol, hsh⟩ | ⟨_, hw, hsh⟩
                · subst hbol
                  have hb := hashBound_of_shMatchHash hsh
                  simp [boundOccScan, hb]
                · have hb := hashBound_of_shMatchHash hsh
                  simp [boundOccScan, hw, hb]
              · have hafter := ih false after htail
                rcases shMatchAt_some_cases hm with ⟨hbol, hsh⟩ | ⟨_, hw, hsh⟩
                · obtain ⟨ds, heq, _, _, _, _⟩ := shMatchHash_decomp hsh
                  rw [heq]
                  have hap := boundOccScan_append ('#' :: ds) after bol hafter
                  simpa using hap
                · obtain ⟨ds, heq, _, _, _, _⟩ := shMatchHash_decomp hsh
                  rw [heq]
                  have hap := boundOccScan_append (c :: '#' :: ds) after bol hafter
                  simpa using hap
          | none =>
              simp only [shScanF, hm] at h
              exact boundOccScan_of_tail bol (ih false rest h)

/-- Completeness of the shorthand matchAll loop with adequate fuel: every
properly boundaried occurrence is collected. -/
theorem shScan_complete {n : Nat} : ∀ (fuel : Nat) (bol : Bool) (l : List Char),
    l.length < fuel → boundOccScan n bol l = true → n ∈ shScanF fuel bol l := by
  intro fuel
  induction fuel with
  | zero => intro bol l hlen h; exact absurd hlen (by omega)
  | succ fuel ih =>
      intro bol l hlen h
      cases l with
      | nil => simp [boundOccScan] at h
      | cons c rest =>
          have hlenr : rest.length < fuel := by
            simp only [List.length_cons] at hlen; omega
          simp only [boundOccScan, Bool.or_eq_true, Bool.and_eq_true] at h
          cases hm : shMatchAt bol (c :: rest) with
          | some r =>
              obtain ⟨m, after⟩ := r
              simp only [shScanF, hm, List.mem_cons]
              rcases shMatchAt_some_cases hm with ⟨hbol, hsh⟩ | ⟨hfirst, hw, hsh⟩
              · obtain ⟨ds, heq, hne, hdig, hm2, hb⟩ := shMatchHash_decomp hsh
                injection heq with hc hrest
                subst hbol; subst hc; subst hrest
                rcases h with (⟨_, hhb⟩ | ⟨hwc, hhb⟩) | hscan
                · left
                  have hspan := takeDigits_append hdig hb
                  rw [hashBoundHere.eq_def] at hhb
                  simp only [hspan, ne_eq, Bool.and_eq_true, decide_eq_true_eq] at hhb
                  rw [← hm2, hhb.1.2]
                · obtain ⟨ds2, after2, heq2, _, _, _, _⟩ := hashBoundHere_decomp hhb
                  cases ds with
                  | nil => exact absurd rfl hne
                  | cons d ds3 =>
                      have hd : d.isDigit = true := hdig d (by simp)
                      simp only [List.cons_append, List.cons.injEq] at heq2
                      rw [heq2.1] at hd
                      exact absurd hd (by decide)
                · right
                  rw [boundOccScan_word_append ds after
                    (fun x hx => isWordChar_of_isDigit (hdig x hx))] at hscan
                  have hla : after.length < fuel := by
                    simp only [List.length_append] at hlenr; omega
                  exact ih false after hla hscan
              · obtain ⟨ds, heq, hne, hdig, hm2, hb⟩ := shMatchHash_decomp hsh
                rcases h with (⟨hbol, hhb⟩ | ⟨hwc, hhb⟩) | hscan
                · obtain ⟨after2, hsome⟩ := shMatchHash_of_hashBound hhb
                  rw [hfirst hbol] at hsome
                  exact absurd hsome (by simp)
                · left
                  subst heq
                  have hspan := takeDigits_append hdig hb
                  rw [hashBoundHere.eq_def] at hhb
                  simp only [hspan, ne_eq, Bool.and_eq_true, decide_eq_true_eq] at hhb
                  rw [← hm2, hhb.1.2]
                · right
                  subst heq
                  simp only [boundOccScan, Bool.false_and, Bool.false_or,
                    Bool.or_eq_true, Bool.and_eq_true] at hscan
                  rcases hscan with ⟨_, hhb⟩ | hscan
                  · obtain ⟨ds2, after2, heq2, _, _, _, _⟩ := hashBoundHere_decomp hhb
                    cases ds with
                    | nil => exact absurd rfl hne
                    | cons d ds3 =>
                        have hd : d.isDigit = true := hdig d (by simp)
                        simp only [List.cons_append, List.cons.injEq] at heq2
                        rw [heq2.1] at hd
                        exact absurd hd (by decide)
                  · rw [boundOccScan_word_append ds after
                      (fun x hx => isWordChar_of_isDigit (hdig x hx))] at hscan
                    have hla : after.length < fuel := by
                      simp only [List.length_cons, List.length_append] at hlenr
                      omega
                    exact ih false after hla hscan
          | none =>
              simp only [shScanF, hm]
              obtain ⟨h1, h2⟩ := shMatchAt_none_cases hm
              rcases h with (⟨hbol, hhb⟩ | ⟨hwc, hhb⟩) | hscan
              · obtain ⟨a2, hs⟩ := shMatchHash_of_hashBound hhb
                rw [h1 hbol] at hs
                exact absurd hs (by simp)
              · obtain ⟨a2, hs⟩ := shMatchHash_of_hashBound hhb
                have hwcf : isWordChar c = false := by
                  rw [Bool.not_eq_true'] at hwc; exact hwc
                rw [h2 hwcf] at hs
                exact absurd hs (by simp)
              · exact ih false rest hlenr hscan

/-- Membership in the shorthand collection is exactly a positive value with
a properly boundaried occurrence. -/
theorem mem_shorthandNums_iff {n : Nat} {text : List Char} :
    n ∈ shorthandNums text ↔ 0 < n ∧ hasBoundedHashOcc n text = true := by
  unfold shorthandNums hasBoundedHashOcc
  simp only [List.mem_filter, decide_eq_true_eq]
  constructor
  · rintro ⟨hmem, hpos⟩
    exact ⟨hpos, shScan_sound _ _ _ hmem⟩
  · rintro ⟨hpos, hocc⟩
    exact ⟨shScan_complete _ _ _ (by omega) hocc, hpos⟩

/-- Membership after folding addUniq. -/
theorem mem_foldl_addUniq {n : Nat} : ∀ (l acc : List Nat),
    n ∈ l.foldl addUniq acc ↔ n ∈ acc ∨ n ∈ l := by
  intro l
  induction l with
  | nil => intro acc; simp
  | cons x xs ih =>
      intro acc
      simp only [List.foldl_cons, ih, List.mem_cons]
      unfold addUniq
      by_cases hc : acc.contains x = true
      · have hx : x ∈ acc := by simpa using hc
        simp only [hc, if_true]
        have hnx : n = x → n ∈ acc := fun h => h ▸ hx
        tauto
      · rw [Bool.not_eq_true] at hc
        simp only [hc, Bool.false_eq_true, if_false, List.mem_append,
          List.mem_singleton]
        tauto

/-- Folding addUniq preserves duplicate-freedom. -/
theorem nodup_foldl_addUniq : ∀ (l acc : List Nat),
    acc.Nodup → (l.foldl addUniq acc).Nodup := by
  intro l
  induction l with
  | nil => intro acc h; simpa
  | cons x xs ih =>
      intro acc h
      apply ih
      unfold addUniq
      by_cases hc : acc.contains x = true
      · rw [if_pos hc]
        exact h
      · have hx : x ∉ acc := by simpa using hc
        rw [if_neg hc]
        simp [List.nodup_append, h, hx]

/-- Set-collection keeps exactly the members. -/
theorem mem_setAdd {n : Nat} {l : List Nat} : n ∈ setAdd l ↔ n ∈ l := by
  unfold setAdd
  rw [mem_foldl_addUniq]
  simp

/-- Set-collection is duplicate-free. -/
theorem nodup_setAdd (l : List Nat) : (setAdd l).Nodup :=
  nodup_foldl_addUniq l [] (by simp)

/-- Sorting keeps exactly the members. -/
theorem mem_sortNatAsc {n : Nat} {l : List Nat} : n ∈ sortNatAsc l ↔ n ∈ l :=
  (List.perm_insertionSort _ l).mem_iff

/-- Sorting a duplicate-free list gives a strictly ascending list. -/
theorem sortNatAsc_pairwise_lt {l : List Nat} (h : l.Nodup) :
    List.Pairwise (fun a b => a < b) (sortNatAsc l) := by
  have hs : List.Sorted (fun a b : Nat => a ≤ b) (sortNatAsc l) :=
    List.sorted_insertionSort _ l
  have hnd : (sortNatAsc l).Nodup := (List.perm_insertionSort _ l).nodup_iff.mpr h
  have hcomb := List.Pairwise.and hs hnd
  exact hcomb.imp (fun hab => lt_of_le_of_ne hab.1 hab.2)

/-- C6 (amended): splitHttpResponse splits at the first CRLF blank-line
boundary when one occurs anywhere in the text, and only in the absence of
any CRLF boundary at the first LF blank-line boundary; with no boundary
the whole text is the body and the status is null. Every header key is
lower-cased. The status is the leftmost match of the status regex on the
first header line: a well-formed HTTP/ token followed by whitespace and
digits parses to that number, and a line without the literal parses to
null. -/
theorem c6_split_http_response :
    (∀ h b : List Char,
      (∀ j, j < h.length →
        startsWith ['\r', '\n', '\r', '\n']
          ((h ++ ['\r', '\n', '\r', '\n'] ++ b).drop j) = false) →
      splitHttpResponse (String.mk (h ++ ['\r', '\n', '\r', '\n'] ++ b)) =
        { status := (parseHeaderBlock h).1, headers := (parseHeaderBlock h).2,
          bodyText := String.mk b }) ∧
    (∀ h b : List Char,
      (∀ j, startsWith ['\r', '\n', '\r', '\n']
        ((h ++ ['\n', '\n'] ++ b).drop j) = false) →
      (∀ j, j < h.length →
        startsWith ['\n', '\n'] ((h ++ ['\n', '\n'] ++ b).drop j) = false) →
      splitHttpResponse (String.mk (h ++ ['\n', '\n'] ++ b)) =
        { status := (parseHeaderBlock h).1, headers := (parseHeaderBlock h).2,
          bodyText := String.mk b }) ∧
    (∀ raw : String,
      (∀ j, startsWith ['\r', '\n', '\r', '\n'] (raw.data.drop j) = false) →
      (∀ j, startsWith ['\n', '\n'] (raw.data.drop j) = false) →
      splitHttpResponse raw = { status := none, headers := [], bodyText := raw }) ∧
    (∀ raw : String, ∀ kv ∈ (splitHttpResponse raw).headers, kv.1 = lowerStr kv.1) ∧
    (∀ v ws ds rest : List Char,
      v ≠ [] → (∀ c ∈ v, isJsWs c = false) →
      ws ≠ [] → (∀ c ∈ ws, isJsWs c = true) →
      ds ≠ [] → (∀ c ∈ ds, c.isDigit = true) →
      (∀ c, rest.head? = some c → c.isDigit = false) →
      findStatus ('H' :: 'T' :: 'T' :: 'P' :: '/' :: (v ++ ws ++ ds ++ rest)) =
        some (natOfDigits ds)) ∧
    (∀ line : List Char,
      (∀ j, startsWith ['H', 'T', 'T', 'P', '/'] (line.drop j) = false) →
      findStatus line = none) := by
  refine ⟨?_, ?_, ?_, ?_, findStatus_pos, findStatus_none⟩
  · intro h b hno
    have hf : findSub ['\r', '\n', '\r', '\n']
        (h ++ ['\r', '\n', '\r', '\n'] ++ b) = some h.length :=
      findSub_at _ h b hno
    have hdata : (String.mk (h ++ ['\r', '\n', '\r', '\n'] ++ b)).data =
        h ++ ['\r', '\n', '\r', '\n'] ++ b := rfl
    simp only [splitHttpResponse, hdata, hf]
    rw [List.append_assoc]
    rw [take_append_self, drop_append_self, drop_append_plus]
    rfl
  · intro h b hcr hlf
    have hnone : findSub ['\r', '\n', '\r', '\n'] (h ++ ['\n', '\n'] ++ b) = none :=
      findSub_none _ _ hcr
    have hf : findSub ['\n', '\n'] (h ++ ['\n', '\n'] ++ b) = some h.length :=
      findSub_at _ h b hlf
    have hdata : (String.mk (h ++ ['\n', '\n'] ++ b)).data =
        h ++ ['\n', '\n'] ++ b := rfl
    simp only [splitHttpResponse, hdata, hnone, hf]
    rw [List.append_assoc]
    rw [take_append_self, drop_append_self, drop_append_plus]
    rfl
  · intro raw hcr hlf
    have h1 : findSub ['\r', '\n', '\r', '\n'] raw.data = none :=
      findSub_none _ _ hcr
    have h2 : findSub ['\n', '\n'] raw.data = none := findSub_none _ _ hlf
    simp only [splitHttpResponse, h1, h2]
  · intro raw kv hkv
    simp only [splitHttpResponse] at hkv
    cases hidx : (match findSub ['\r', '\n', '\r', '\n'] raw.data with
      | some i => some i
      | none => findSub ['\n', '\n'] raw.data) with
    | none =>
        rw [hidx] at hkv
        simp at hkv
    | some i =>
        rw [hidx] at hkv
        exact parseHeaderBlock_lower _ kv hkv

/-- C6 counterexample: a capture whose FIRST blank-line boundary is
LF-framed but which contains a later CRLF boundary is split by the code at
the later CRLF boundary, not at the first boundary as the claim requires. -/
theorem c6_counterexample :
    (splitHttpResponse "HTTP/1.1 200 OK\nH: v\n\nbodyA\r\n\r\nbodyB").bodyText =
      "bodyB" ∧
    specFirstBoundaryBody "HTTP/1.1 200 OK\nH: v\n\nbodyA\r\n\r\nbodyB" =
      some "bodyA\r\n\r\nbodyB" ∧
    ("bodyB" : String) ≠ "bodyA\r\n\r\nbodyB" :=
  ⟨by decide, by decide, by decide⟩

/-- C6 witness: the amended theorem applied at a concrete capture with a
CRLF boundary after a one-character header block. -/
theorem c6_witness :
    splitHttpResponse (String.mk (['A'] ++ ['\r', '\n', '\r', '\n'] ++ ['B'])) =
      { status := (parseHeaderBlock ['A']).1, headers := (parseHeaderBlock ['A']).2,
        bodyText := String.mk ['B'] } :=
  c6_split_http_response.1 ['A'] ['B'] (by decide)

/-- C7: extractReferencedNumbers never yields a number from a hash
occurrence embedded inside a larger identifier token: every member of the
result has a properly boundaried shorthand occurrence or comes from the
qualified or URL pattern scans; every properly boundaried positive
shorthand occurrence is extracted; and the result is strictly ascending
(hence duplicate-free) with only positive members. -/
theorem c7_reference_extraction (t owner repo : String) :
    List.Pairwise (fun a b => a < b) (extractReferencedNumbers (some t) owner repo) ∧
    (∀ n ∈ extractReferencedNumbers (some t) owner repo, 0 < n) ∧
    (∀ n ∈ extractReferencedNumbers (some t) owner repo,
      hasBoundedHashOcc n t.data = true ∨
      n ∈ qualifiedNums (owner ++ "/" ++ repo) t.data ∨
      n ∈ urlNums (owner ++ "/" ++ repo) t.data) ∧
    (∀ n, 0 < n → hasBoundedHashOcc n t.data = true →
      n ∈ extractReferencedNumbers (some t) owner repo) := by
  by_cases ht : t = ""
  · subst ht
    refine ⟨by simp [extractReferencedNumbers], by simp [extractReferencedNumbers],
      by simp [extractReferencedNumbers], ?_⟩
    intro n hpos hocc
    have hdat : ("" : String).data = [] := rfl
    rw [hdat] at hocc
    simp [hasBoundedHashOcc, boundOccScan] at hocc
  · have hrw : extractReferencedNumbers (some t) owner repo =
        sortNatAsc (setAdd (shorthandNums t.data ++
          (qualifiedNums (owner ++ "/" ++ repo) t.data ++
            urlNums (owner ++ "/" ++ repo) t.data))) := by
      simp [extractReferencedNumbers, ht]
    refine ⟨?_, ?_, ?_, ?_⟩
    · rw [hrw]
      exact sortNatAsc_pairwise_lt (nodup_setAdd _)
    · intro n hn
      rw [hrw, mem_sortNatAsc, mem_setAdd] at hn
      simp only [List.mem_append] at hn
      rcases hn with h | h | h
      · exact (mem_shorthandNums_iff.mp h).1
      · simp only [qualifiedNums, List.mem_filter, decide_eq_true_eq] at h
        exact h.2
      · simp only [urlNums, List.mem_filter, decide_eq_true_eq] at h
        exact h.2
    · intro n hn
      rw [hrw, mem_sortNatAsc, mem_setAdd] at hn
      simp only [List.mem_append] at hn
      rcases hn with h | h | h
      · exact Or.inl (mem_shorthandNums_iff.mp h).2
      · exact Or.inr (Or.inl h)
      · exact Or.inr (Or.inr h)
    · intro n hpos hocc
      rw [hrw, mem_sortNatAsc, mem_setAdd]
      simp only [List.mem_append]
      exact Or.inl (mem_shorthandNums_iff.mpr ⟨hpos, hocc⟩)

/-- C7 witness: the result properties at a concrete text mixing a
boundaried shorthand, an embedded non-match and a qualified reference. -/
theorem c7_witness :
    List.Pairwise (fun a b => a < b)
      (extractReferencedNumbers (some "see #3, abc#12def, octo/hello#2") "octo" "hello") ∧
    (∀ n ∈ extractReferencedNumbers (some "see #3, abc#12def, octo/hello#2") "octo" "hello",
      0 < n) ∧
    (∀ n ∈ extractReferencedNumbers (some "see #3, abc#12def, octo/hello#2") "octo" "hello",
      hasBoundedHashOcc n ("see #3, abc#12def, octo/hello#2" : String).data = true ∨
      n ∈ qualifiedNums ("octo" ++ "/" ++ "hello") ("see #3, abc#12def, octo/hello#2" : String).data ∨
      n ∈ urlNums ("octo" ++ "/" ++ "hello") ("see #3, abc#12def, octo/hello#2" : String).data) ∧
    (∀ n, 0 < n →
      hasBoundedHashOcc n ("see #3, abc#12def, octo/hello#2" : String).data = true →
      n ∈ extractReferencedNumbers (some "see #3, abc#12def, octo/hello#2") "octo" "hello") :=
  c7_reference_extraction "see #3, abc#12def, octo/hello#2" "octo" "hello"

/-- The entry just set is found. -/
theorem lookupNode_setNodeEntry_self (k : String) (n : GraphNode) :
    ∀ nodes, lookupNode k (setNodeEntry k n nodes) = some n := by
  intro nodes
  induction nodes with
  | nil => simp [setNodeEntry, lookupNode]
  | cons p rest ih =>
      obtain ⟨k2, n2⟩ := p
      by_cases hk : k2 = k
      · subst hk
        simp [setNodeEntry, lookupNode]
      · simp [setNodeEntry, lookupNode, hk, ih]

/-- Setting an entry keeps every present key present. -/
theorem nodesHasKey_setNodeEntry_mono {k2 : String} (k : String) (n : GraphNode) :
    ∀ nodes, nodesHasKey nodes k2 = true →
    nodesHasKey (setNodeEntry k n nodes) k2 = true := by
  intro nodes
  induction nodes with
  | nil => intro h; simp [nodesHasKey, lookupNode] at h
  | cons p rest ih =>
      obtain ⟨ka, na⟩ := p
      intro h
      by_cases hk : ka = k
      · subst hk
        simp only [nodesHasKey, lookupNode] at h
        simp only [setNodeEntry, if_pos rfl, nodesHasKey, lookupNode]
        by_cases hk2 : ka = k2
        · simp [hk2]
        · simp only [hk2, if_false] at h ⊢
          exact h
      · simp only [setNodeEntry, hk, if_false, nodesHasKey, lookupNode]
        simp only [nodesHasKey, lookupNode] at h
        by_cases hk2 : ka = k2
        · simp [hk2]
        · simp only [hk2, if_false] at h ⊢
          exact ih h

/-- The key just set is present. -/
theorem nodesHasKey_setNodeEntry_self (k : String) (n : GraphNode)
    (nodes : List (String × GraphNode)) :
    nodesHasKey (setNodeEntry k n nodes) k = true := by
  simp [nodesHasKey, lookupNode_setNodeEntry_self]

/-- addNode makes the node key present. -/
theorem nodesHasKey_addNode_self (g : RefGraph) (n : GraphNode) :
    nodesHasKey (addNode g n).nodes n.id = true :=
  nodesHasKey_setNodeEntry_self n.id n g.nodes

/-- addNode keeps every present key present. -/
theorem keysMono_addNode (g : RefGraph) (n : GraphNode) :
    keysMono g (addNode g n) :=
  fun _ h => nodesHasKey_setNodeEntry_mono n.id n g.nodes h

/-- keysMono is reflexive. -/
theorem keysMono_refl (g : RefGraph) : keysMono g g := fun _ h => h

/-- keysMono is transitive. -/
theorem keysMono_trans {g1 g2 g3 : RefGraph} (h1 : keysMono g1 g2)
    (h2 : keysMono g2 g3) : keysMono g1 g3 :=
  fun k h => h2 k (h1 k h)

/-- addNode preserves the edge-endpoint invariant. -/
theorem edgeKeysOk_addNode {g : RefGraph} (n : GraphNode) (h : edgeKeysOk g) :
    edgeKeysOk (addNode g n) := by
  intro e he
  obtain ⟨h1, h2⟩ := h e he
  exact ⟨keysMono_addNode g n _ h1, keysMono_addNode g n _ h2⟩

/-- addEdge preserves the invariant when both endpoints are present. -/
theorem edgeKeysOk_addEdge {g : RefGraph} {e : GraphEdge} (h : edgeKeysOk g)
    (hf : nodesHasKey g.nodes e.fromId = true)
    (ht : nodesHasKey g.nodes e.toId = true) : edgeKeysOk (addEdge g e) := by
  intro e2 he2
  simp only [addEdge, List.mem_append, List.mem_singleton] at he2
  rcases he2 with he2 | he2
  · exact h e2 he2
  · subst he2
    exact ⟨hf, ht⟩

/-- Equal node maps transfer the invariant. -/
theorem edgeKeysOk_of_eq {g g2 : RefGraph} (h1 : g2.nodes = g.nodes)
    (h2 : g2.edges = g.edges) (h : edgeKeysOk g) : edgeKeysOk g2 := by
  intro e he
  rw [h2] at he
  rw [h1]
  exact h e he

/-- Equal node maps give key monotonicity. -/
theorem keysMono_of_eq {g g2 : RefGraph} (h : g2.nodes = g.nodes) :
    keysMono g g2 := by
  intro k hk
  rw [h]
  exact hk

/-- A stats-only conditional update leaves nodes, edges and root alone. -/
theorem ite_bump_fields {c : Prop} [Decidable c] (f : RefGraph → RefGraph)
    (g : RefGraph) (hn : ∀ g2, (f g2).nodes = g2.nodes)
    (he : ∀ g2, (f g2).edges = g2.edges) (hr : ∀ g2, (f g2).rootId = g2.rootId) :
    (if c then f g else g).nodes = g.nodes ∧
    (if c then f g else g).edges = g.edges ∧
    (if c then f g else g).rootId = g.rootId := by
  split
  · exact ⟨hn g, he g, hr g⟩
  · exact ⟨rfl, rfl, rfl⟩

/-- Membership after a uniquePush. -/
theorem mem_addUniq {m n : Nat} {l : List Nat} (h : m ∈ addUniq l n) :
    m ∈ l ∨ m = n := by
  unfold addUniq at h
  by_cases hc : l.contains n = true
  · rw [if_pos hc] at h
    exact Or.inl h
  · rw [if_neg hc] at h
    simpa using h

/-- The Bool form of the invariant agrees with the Prop form. -/
theorem edgesClosedB_eq_true {g : RefGraph} :
    edgesClosedB g = true ↔ edgeKeysOk g := by
  unfold edgesClosedB edgeKeysOk
  rw [List.all_eq_true]
  constructor
  · intro h e he
    have h2 := h e he
    simp only [Bool.and_eq_true] at h2
    exact h2
  · intro h e he
    simp only [Bool.and_eq_true]
    exact h e he

/-- The timeline edge loop keeps the invariant when the issue node key is
present, never drops node keys, and keeps the root id. -/
theorem addTimelineEdgeList_ok (owner repo : String) (issueNum : Nat)
    (etype : String) :
    ∀ (ns : List Nat) (g : RefGraph), edgeKeysOk g →
    nodesHasKey g.nodes (issueNodeId owner repo issueNum) = true →
    edgeKeysOk (addTimelineEdgeList owner repo issueNum etype ns g) ∧
    keysMono g (addTimelineEdgeList owner repo issueNum etype ns g) ∧
    (addTimelineEdgeList owner repo issueNum etype ns g).rootId = g.rootId := by
  intro ns
  induction ns with
  | nil => intro g h hk; exact ⟨h, keysMono_refl g, rfl⟩
  | cons n rest ih =>
      intro g h hk
      simp only [addTimelineEdgeList]
      by_cases hp : nodesHasKey g.nodes (prNodeId owner repo n) = true
      · rw [if_pos hp]
        have h2 : edgeKeysOk (addEdge g
            { fromId := issueNodeId owner repo issueNum,
              toId := prNodeId owner repo n, type := etype }) :=
          edgeKeysOk_addEdge h hk hp
        obtain ⟨hrok, hrmono, hrroot⟩ := ih _ h2 hk
        exact ⟨hrok, fun k hkk => hrmono k hkk, hrroot⟩
      · rw [if_neg hp]
        have h1 : edgeKeysOk (addNode g
            { id := prNodeId owner repo n, type := "pr", owner := owner,
              repo := repo, number := n }) := edgeKeysOk_addNode _ h
        have hk1 : nodesHasKey (addNode g
            { id := prNodeId owner repo n, type := "pr", owner := owner,
              repo := repo, number := n }).nodes
            (issueNodeId owner repo issueNum) = true :=
          keysMono_addNode g _ _ hk
        have hp1 : nodesHasKey (addNode g
            { id := prNodeId owner repo n, type := "pr", owner := owner,
              repo := repo, number := n }).nodes (prNodeId owner repo n) = true :=
          nodesHasKey_addNode_self g _
        have h2 : edgeKeysOk (addEdge (addNode g
            { id := prNodeId owner repo n, type := "pr", owner := owner,
              repo := repo, number := n })
            { fromId := issueNodeId owner repo issueNum,
              toId := prNodeId owner repo n, type := etype }) :=
          edgeKeysOk_addEdge h1 hk1 hp1
        obtain ⟨hrok, hrmono, hrroot⟩ := ih _ h2 hk1
        refine ⟨hrok, ?_, hrroot⟩
        exact keysMono_trans (keysMono_addNode g _) (fun k hkk => hrmono k hkk)

/-- getNumberKind never changes nodes, edges or the root id. -/
theorem getNumberKind_fields {gh : GhClient} {st : BuildState} {num : Nat}
    {k : NumKind} {st1 : BuildState}
    (h : getNumberKind gh st num = Except.ok (k, st1)) :
    st1.graph.nodes = st.graph.nodes ∧ st1.graph.edges = st.graph.edges ∧
    st1.graph.rootId = st.graph.rootId := by
  unfold getNumberKind at h
  cases hlk : lookupKind num st.kindCache with
  | some k2 =>
      rw [hlk] at h
      simp only [Except.ok.injEq, Prod.mk.injEq] at h
      obtain ⟨hk, hst⟩ := h
      subst hst
      exact ⟨rfl, rfl, rfl⟩
  | none =>
      rw [hlk] at h
      cases hgi : gh.getIssue num with
      | error e => rw [hgi] at h; exact absurd h (by simp)
      | ok issue =>
          rw [hgi] at h
          simp only [Except.ok.injEq, Prod.mk.injEq] at h
          obtain ⟨hk, hst⟩ := h
          subst hst
          exact ⟨rfl, rfl, rfl⟩

/-- fetchPRWithComments never changes nodes, edges or the root id. -/
theorem fetchPRWithComments_fields {gh : GhClient} {st : BuildState} {num : Nat}
    {pr : Option PrPayload} {comments : List (Option CommentObj)}
    {st1 : BuildState}
    (h : fetchPRWithComments gh st num = Except.ok ((pr, comments), st1)) :
    st1.graph.nodes = st.graph.nodes ∧ st1.graph.edges = st.graph.edges ∧
    st1.graph.rootId = st.graph.rootId := by
  unfold fetchPRWithComments at h
  cases hpr : gh.getPR num with
  | error e => rw [hpr] at h; exact absurd h (by simp)
  | ok p =>
      rw [hpr] at h
      cases hcm : gh.listPRComments num with
      | error e => rw [hcm] at h; exact absurd h (by simp)
      | ok cs =>
          rw [hcm] at h
          simp only [Except.ok.injEq, Prod.mk.injEq] at h
          obtain ⟨⟨hp2, hc2⟩, hst⟩ := h
          subst hst
          exact ⟨rfl, rfl, rfl⟩

/-- The layer-1 classification loop never changes nodes, edges or the
root id. -/
theorem classifyLayer1_fields {gh : GhClient} :
    ∀ (ns : List Nat) (st : BuildState) (issues prs : List Nat)
      {st1 : BuildState} {i1 p1 : List Nat},
    classifyLayer1 gh ns st issues prs = Except.ok (st1, i1, p1) →
    st1.graph.nodes = st.graph.nodes ∧ st1.graph.edges = st.graph.edges ∧
    st1.graph.rootId = st.graph.rootId := by
  intro ns
  induction ns with
  | nil =>
      intro st issues prs st1 i1 p1 h
      simp only [classifyLayer1, Except.ok.injEq, Prod.mk.injEq] at h
      obtain ⟨h1, h2, h3⟩ := h
      subst h1
      exact ⟨rfl, rfl, rfl⟩
  | cons n rest ih =>
      intro st issues prs st1 i1 p1 h
      simp only [classifyLayer1] at h
      cases hgk : getNumberKind gh st n with
      | error e => rw [hgk] at h; exact absurd h (by simp)
      | ok kst =>
          obtain ⟨kind, stA⟩ := kst
          rw [hgk] at h
          dsimp only at h
          obtain ⟨hn, he, hr⟩ := getNumberKind_fields hgk
          split at h
          · obtain ⟨hn2, he2, hr2⟩ := ih _ _ _ h
            exact ⟨hn2.trans hn, he2.trans he, hr2.trans hr⟩
          · split at h <;>
              (obtain ⟨hn2, he2, hr2⟩ := ih _ _ _ h;
               exact ⟨hn2.trans hn, he2.trans he, hr2.trans hr⟩)

/-- addIssueTimelineEdges keeps the invariant when the issue node key is
present, never drops node keys, and keeps the root id. -/
theorem addIssueTimelineEdges_ok {gh : GhClient} {owner repo : String}
    {st : BuildState} {issueNum maxPrs : Nat} {ef : String → String}
    {closing cross : List Nat} {st1 : BuildState}
    (h : addIssueTimelineEdges gh owner repo st issueNum maxPrs ef =
      Except.ok ((closing, cross), st1))
    (hok : edgeKeysOk st.graph)
    (hkey : nodesHasKey st.graph.nodes (issueNodeId owner repo issueNum) = true) :
    edgeKeysOk st1.graph ∧ keysMono st.graph st1.graph ∧
    st1.graph.rootId = st.graph.rootId := by
  unfold addIssueTimelineEdges at h
  cases htl : gh.getIssueTimeline issueNum with
  | error e => rw [htl] at h; exact absurd h (by simp)
  | ok timeline =>
      rw [htl] at h
      simp only [Except.ok.injEq, Prod.mk.injEq] at h
      obtain ⟨⟨hc1, hc2⟩, hst⟩ := h
      subst hst
      obtain ⟨hn1, he1, hr1⟩ := ite_bump_fields (c :=
        ((timelinePRNumbers timeline).1.take maxPrs).length <
          (timelinePRNumbers timeline).1.length) bumpClosingTrunc
        (bumpGetIssueTimeline st.graph) (fun _ => rfl) (fun _ => rfl) (fun _ => rfl)
      obtain ⟨hn2, he2, hr2⟩ := ite_bump_fields (c :=
        ((timelinePRNumbers timeline).2.take
          (maxPrs - ((timelinePRNumbers timeline).1.take maxPrs).length)).length <
          (timelinePRNumbers timeline).2.length) bumpClosingTrunc _
        (fun _ => rfl) (fun _ => rfl) (fun _ => rfl)
      have hokg2 : edgeKeysOk (if
          ((timelinePRNumbers timeline).2.take
            (maxPrs - ((timelinePRNumbers timeline).1.take maxPrs).length)).length <
            (timelinePRNumbers timeline).2.length then
          bumpClosingTrunc (if ((timelinePRNumbers timeline).1.take maxPrs).length <
              (timelinePRNumbers timeline).1.length then
            bumpClosingTrunc (bumpGetIssueTimeline st.graph)
          else bumpGetIssueTimeline st.graph)
        else (if ((timelinePRNumbers timeline).1.take maxPrs).length <
              (timelinePRNumbers timeline).1.length then
            bumpClosingTrunc (bumpGetIssueTimeline st.graph)
          else bumpGetIssueTimeline st.graph)) := by
        apply edgeKeysOk_of_eq (g := st.graph)
        · exact hn2.trans hn1
        · exact he2.trans he1
        · exact hok
      have hkeyg2 : nodesHasKey (if
          ((timelinePRNumbers timeline).2.take
            (maxPrs - ((timelinePRNumbers timeline).1.take maxPrs).length)).length <
            (timelinePRNumbers timeline).2.length then
          bumpClosingTrunc (if ((timelinePRNumbers timeline).1.take maxPrs).length <
              (timelinePRNumbers timeline).1.length then
            bumpClosingTrunc (bumpGetIssueTimeline st.graph)
          else bumpGetIssueTimeline st.graph)
        else (if ((timelinePRNumbers timeline).1.take maxPrs).length <
              (timelinePRNumbers timeline).1.length then
            bumpClosingTrunc (bumpGetIssueTimeline st.graph)
          else bumpGetIssueTimeline st.graph)).nodes
          (issueNodeId owner repo issueNum) = true := by
        rw [hn2.trans hn1]
        exact hkey
      obtain ⟨h3ok, h3mono, h3root⟩ :=
        addTimelineEdgeList_ok owner repo issueNum (ef "closed_by") _ _ hokg2 hkeyg2
      obtain ⟨h4ok, h4mono, h4root⟩ :=
        addTimelineEdgeList_ok owner repo issueNum (ef "cross_referenced_by") _ _
          h3ok (h3mono _ hkeyg2)
      refine ⟨h4ok, ?_, ?_⟩
      · exact keysMono_trans (keysMono_of_eq (hn2.trans hn1))
          (keysMono_trans h3mono h4mono)
      · exact (h4root.trans h3root).trans (hr2.trans hr1)

/-- The relatedStep fold keeps the invariant, node keys and the root id. -/
theorem foldl_relatedStep_ok (owner repo : String) (issueNum : Nat) :
    ∀ (prNums : List Nat) (p : List Nat × RefGraph), edgeKeysOk p.2 →
    edgeKeysOk (prNums.foldl (relatedStep owner repo issueNum) p).2 ∧
    keysMono p.2 (prNums.foldl (relatedStep owner repo issueNum) p).2 ∧
    (prNums.foldl (relatedStep owner repo issueNum) p).2.rootId = p.2.rootId := by
  intro prNums
  induction prNums with
  | nil => intro p h; exact ⟨h, keysMono_refl _, rfl⟩
  | cons x xs ih =>
      intro p h
      simp only [List.foldl_cons]
      have hstep : edgeKeysOk (relatedStep owner repo issueNum p x).2 ∧
          keysMono p.2 (relatedStep owner repo issueNum p x).2 ∧
          (relatedStep owner repo issueNum p x).2.rootId = p.2.rootId := by
        unfold relatedStep
        dsimp only
        by_cases hc : nodesHasKey p.2.nodes (issueNodeId owner repo issueNum) = true
        · rw [if_pos hc]
          exact ⟨h, keysMono_refl _, rfl⟩
        · rw [if_neg hc]
          exact ⟨edgeKeysOk_addNode _ h, keysMono_addNode _ _, rfl⟩
      obtain ⟨h1, h2, h3⟩ := hstep
      obtain ⟨h4, h5, h6⟩ := ih _ h1
      exact ⟨h4, keysMono_trans h2 h5, h6.trans h3⟩

/-- A conditional node upgrade keeps the invariant and ensures the node
key when the skipped branch implies it was already present. -/
theorem upgrade_ite_ok {g : RefGraph} (c : Bool) (node : GraphNode)
    (hok : edgeKeysOk g) (hkey : c = false → nodesHasKey g.nodes node.id = true) :
    edgeKeysOk (if c = true then addNode g node else g) ∧
    keysMono g (if c = true then addNode g node else g) ∧
    (if c = true then addNode g node else g).rootId = g.rootId ∧
    nodesHasKey (if c = true then addNode g node else g).nodes node.id = true := by
  cases c
  · simp only [Bool.false_eq_true, if_false]
    exact ⟨hok, keysMono_refl g, trivial, hkey rfl⟩
  · simp only [if_true]
    exact ⟨edgeKeysOk_addNode _ hok, keysMono_addNode _ _, rfl,
      nodesHasKey_addNode_self _ _⟩

/-- The layer-1 issue loop keeps the invariant when the root key is
present, never drops node keys, keeps the root id, and leaves every listed
issue node key present. -/
theorem addLayer1IssueNodes_ok (owner repo rootId : String) :
    ∀ (ns : List Nat) (g : RefGraph), edgeKeysOk g →
    nodesHasKey g.nodes rootId = true →
    edgeKeysOk (addLayer1IssueNodes owner repo rootId ns g) ∧
    keysMono g (addLayer1IssueNodes owner repo rootId ns g) ∧
    (addLayer1IssueNodes owner repo rootId ns g).rootId = g.rootId ∧
    ∀ n ∈ ns, nodesHasKey (addLayer1IssueNodes owner repo rootId ns g).nodes
      (issueNodeId owner repo n) = true := by
  intro ns
  induction ns with
  | nil =>
      intro g h hk
      refine ⟨h, keysMono_refl g, rfl, ?_⟩
      intro n hn
      simp at hn
  | cons n rest ih =>
      intro g h hk
      simp only [addLayer1IssueNodes]
      have h1 : edgeKeysOk (addNode g
          { id := issueNodeId owner repo n, type := "issue", owner := owner,
            repo := repo, number := n }) := edgeKeysOk_addNode _ h
      have hk1 : nodesHasKey (addNode g
          { id := issueNodeId owner repo n, type := "issue", owner := owner,
            repo := repo, number := n }).nodes rootId = true :=
        keysMono_addNode g _ _ hk
      have hi1 : nodesHasKey (addNode g
          { id := issueNodeId owner repo n, type := "issue", owner := owner,
            repo := repo, number := n }).nodes (issueNodeId owner repo n) = true :=
        nodesHasKey_addNode_self g _
      have h2 : edgeKeysOk (addEdge (addNode g
          { id := issueNodeId owner repo n, type := "issue", owner := owner,
            repo := repo, number := n })
          { fromId := rootId, toId := issueNodeId owner repo n,
            type := "references" }) :=
        edgeKeysOk_addEdge h1 hk1 hi1
      obtain ⟨hrok, hrmono, hrroot, hrcov⟩ := ih _ h2 hk1
      refine ⟨hrok,
        keysMono_trans (keysMono_addNode g _) (fun k hkk => hrmono k hkk),
        hrroot, ?_⟩
      intro m hm
      rcases List.mem_cons.mp hm with hm | hm
      · subst hm
        exact hrmono _ hi1
      · exact hrcov m hm

/-- The layer-1 PR loop keeps the invariant when the root key is present,
never drops node keys, and keeps the root id. -/
theorem addLayer1PrNodes_ok (owner repo rootId : String) :
    ∀ (ns : List Nat) (g : RefGraph), edgeKeysOk g →
    nodesHasKey g.nodes rootId = true →
    edgeKeysOk (addLayer1PrNodes owner repo rootId ns g) ∧
    keysMono g (addLayer1PrNodes owner repo rootId ns g) ∧
    (addLayer1PrNodes owner repo rootId ns g).rootId = g.rootId := by
  intro ns
  induction ns with
  | nil => intro g h hk; exact ⟨h, keysMono_refl g, rfl⟩
  | cons n rest ih =>
      intro g h hk
      simp only [addLayer1PrNodes]
      have h1 : edgeKeysOk (addNode g
          { id := prNodeId owner repo n, type := "pr", owner := owner,
            repo := repo, number := n }) := edgeKeysOk_addNode _ h
      have hk1 : nodesHasKey (addNode g
          { id := prNodeId owner repo n, type := "pr", owner := owner,
            repo := repo, number := n }).nodes rootId = true :=
        keysMono_addNode g _ _ hk
      have hp1 : nodesHasKey (addNode g
          { id := prNodeId owner repo n, type := "pr", owner := owner,
            repo := repo, number := n }).nodes (prNodeId owner repo n) = true :=
        nodesHasKey_addNode_self g _
      have h2 : edgeKeysOk (addEdge (addNode g
          { id := prNodeId owner repo n, type := "pr", owner := owner,
            repo := repo, number := n })
          { fromId := rootId, toId := prNodeId owner repo n,
            type := "references" }) :=
        edgeKeysOk_addEdge h1 hk1 hp1
      obtain ⟨hrok, hrmono, hrroot⟩ := ih _ h2 hk1
      exact ⟨hrok,
        keysMono_trans (keysMono_addNode g _) (fun k hkk => hrmono k hkk),
        hrroot⟩

/-- The layer-1 issue expansion keeps the invariant when every listed
issue node key is present, never drops node keys, and keeps the root id. -/
theorem expandLayer1Issues_ok {gh : GhClient} {owner repo : String}
    {maxPrs : Nat} :
    ∀ (ns : List Nat) (st : BuildState) (acc : List Nat) {st1 : BuildState}
      {rel : List Nat},
    expandLayer1Issues gh owner repo maxPrs ns st acc = Except.ok (st1, rel) →
    edgeKeysOk st.graph →
    (∀ i ∈ ns, nodesHasKey st.graph.nodes (issueNodeId owner repo i) = true) →
    edgeKeysOk st1.graph ∧ keysMono st.graph st1.graph ∧
    st1.graph.rootId = st.graph.rootId := by
  intro ns
  induction ns with
  | nil =>
      intro st acc st1 rel h hok hkeys
      simp only [expandLayer1Issues, Except.ok.injEq, Prod.mk.injEq] at h
      obtain ⟨h1, h2⟩ := h
      subst h1
      exact ⟨hok, keysMono_refl _, rfl⟩
  | cons i rest ih =>
      intro st acc st1 rel h hok hkeys
      simp only [expandLayer1Issues] at h
      cases hti : addIssueTimelineEdges gh owner repo st i maxPrs (fun k => k) with
      | error e => rw [hti] at h; exact absurd h (by simp)
      | ok res =>
          obtain ⟨⟨closing, cross⟩, stA⟩ := res
          rw [hti] at h
          dsimp only at h
          obtain ⟨hAok, hAmono, hAroot⟩ :=
            addIssueTimelineEdges_ok hti hok (hkeys i (by simp))
          obtain ⟨hFok, hFmono, hFroot⟩ :=
            foldl_relatedStep_ok owner repo i (closing ++ cross) (acc, stA.graph) hAok
          have hcov2 : ∀ j ∈ rest, nodesHasKey ((closing ++ cross).foldl
              (relatedStep owner repo i) (acc, stA.graph)).2.nodes
              (issueNodeId owner repo j) = true := by
            intro j hj
            exact hFmono _ (hAmono _ (hkeys j (by simp [hj])))
          obtain ⟨h4, h5, h6⟩ := ih _ _ h hFok hcov2
          refine ⟨h4, ?_, ?_⟩
          · exact keysMono_trans hAmono (keysMono_trans hFmono h5)
          · exact (h6.trans hFroot).trans hAroot

/-- The layer-2 reference classification keeps the invariant when the PR
node key is present, never drops node keys, keeps the root id, and leaves
every collected layer-2 issue node key present. -/
theorem classifyLayer2Refs_ok {gh : GhClient} {owner repo pid : String} :
    ∀ (ns : List Nat) (st : BuildState) (l2i l2p : List Nat) {st1 : BuildState}
      {l2i1 l2p1 : List Nat},
    classifyLayer2Refs gh owner repo pid ns st l2i l2p =
      Except.ok (st1, l2i1, l2p1) →
    edgeKeysOk st.graph → nodesHasKey st.graph.nodes pid = true →
    (∀ i ∈ l2i, nodesHasKey st.graph.nodes (issueNodeId owner repo i) = true) →
    edgeKeysOk st1.graph ∧ keysMono st.graph st1.graph ∧
    st1.graph.rootId = st.graph.rootId ∧
    ∀ i ∈ l2i1, nodesHasKey st1.graph.nodes (issueNodeId owner repo i) = true := by
  intro ns
  induction ns with
  | nil =>
      intro st l2i l2p st1 l2i1 l2p1 h hok hpid hcov
      simp only [classifyLayer2Refs, Except.ok.injEq, Prod.mk.injEq] at h
      obtain ⟨h1, h2, h3⟩ := h
      subst h1
      subst h2
      exact ⟨hok, keysMono_refl _, rfl, hcov⟩
  | cons n rest ih =>
      intro st l2i l2p st1 l2i1 l2p1 h hok hpid hcov
      simp only [classifyLayer2Refs] at h
      cases hgk : getNumberKind gh st n with
      | error e => rw [hgk] at h; exact absurd h (by simp)
      | ok kst =>
          obtain ⟨kind, stA⟩ := kst
          rw [hgk] at h
          dsimp only at h
          obtain ⟨hN, hE, hR⟩ := getNumberKind_fields hgk
          have hokA : edgeKeysOk stA.graph := edgeKeysOk_of_eq hN hE hok
          have hpidA : nodesHasKey stA.graph.nodes pid = true := by
            rw [hN]; exact hpid
          have hcovA : ∀ i ∈ l2i,
              nodesHasKey stA.graph.nodes (issueNodeId owner repo i) = true := by
            intro i hi; rw [hN]; exact hcov i hi
          split at h
          · by_cases hki : nodesHasKey stA.graph.nodes (issueNodeId owner repo n) = true
            · rw [if_pos hki] at h
              have hg2 : edgeKeysOk (addEdge stA.graph
                  { fromId := pid, toId := issueNodeId owner repo n,
                    type := "references" }) :=
                edgeKeysOk_addEdge hokA hpidA hki
              have hcov2 : ∀ i ∈ addUniq l2i n, nodesHasKey (addEdge stA.graph
                  { fromId := pid, toId := issueNodeId owner repo n,
                    type := "references" }).nodes (issueNodeId owner repo i) = true := by
                intro i hi
                rcases mem_addUniq hi with hi2 | hi2
                · exact hcovA i hi2
                · subst hi2; exact hki
              obtain ⟨h4, h5, h6, h7⟩ := ih _ _ _ h hg2 hpidA hcov2
              exact ⟨h4, keysMono_trans (keysMono_of_eq hN) h5, h6.trans hR, h7⟩
            · rw [if_neg hki] at h
              have h1ok : edgeKeysOk (addNode stA.graph
                  { id := issueNodeId owner repo n, type := "issue", owner := owner,
                    repo := repo, number := n }) := edgeKeysOk_addNode _ hokA
              have hpid1 : nodesHasKey (addNode stA.graph
                  { id := issueNodeId owner repo n, type := "issue", owner := owner,
                    repo := repo, number := n }).nodes pid = true :=
                keysMono_addNode stA.graph _ _ hpidA
              have hki1 : nodesHasKey (addNode stA.graph
                  { id := issueNodeId owner repo n, type := "issue", owner := owner,
                    repo := repo, number := n }).nodes (issueNodeId owner repo n) = true :=
                nodesHasKey_addNode_self stA.graph _
              have hg2 : edgeKeysOk (addEdge (addNode stA.graph
                  { id := issueNodeId owner repo n, type := "issue", owner := owner,
                    repo := repo, number := n })
                  { fromId := pid, toId := issueNodeId owner repo n,
                    type := "references" }) :=
                edgeKeysOk_addEdge h1ok hpid1 hki1
              have hcov2 : ∀ i ∈ addUniq l2i n, nodesHasKey (addEdge (addNode stA.graph
                  { id := issueNodeId owner repo n, type := "issue", owner := owner,
                    repo := repo, number := n })
                  { fromId := pid, toId := issueNodeId owner repo n,
                    type := "references" }).nodes (issueNodeId owner repo i) = true := by
                intro i hi
                rcases mem_addUniq hi with hi2 | hi2
                · exact keysMono_addNode stA.graph _ _ (hcovA i hi2)
                · subst hi2; exact hki1
              obtain ⟨h4, h5, h6, h7⟩ := ih _ _ _ h hg2 hpid1 hcov2
              refine ⟨h4, ?_, h6.trans hR, h7⟩
              exact keysMono_trans (keysMono_of_eq hN)
                (keysMono_trans (keysMono_addNode stA.graph _) h5)
          · split at h
            · by_cases hkp : nodesHasKey stA.graph.nodes (prNodeId owner repo n) = true
              · rw [if_pos hkp] at h
                have hg2 : edgeKeysOk (addEdge stA.graph
                    { fromId := pid, toId := prNodeId owner repo n,
                      type := "references" }) :=
                  edgeKeysOk_addEdge hokA hpidA hkp
                obtain ⟨h4, h5, h6, h7⟩ := ih _ _ _ h hg2 hpidA hcovA
                exact ⟨h4, keysMono_trans (keysMono_of_eq hN) h5, h6.trans hR, h7⟩
              · rw [if_neg hkp] at h
                have h1ok : edgeKeysOk (addNode stA.graph
                    { id := prNodeId owner repo n, type := "pr", owner := owner,
                      repo := repo, number := n }) := edgeKeysOk_addNode _ hokA
                have hpid1 : nodesHasKey (addNode stA.graph
                    { id := prNodeId owner repo n, type := "pr", owner := owner,
                      repo := repo, number := n }).nodes pid = true :=
                  keysMono_addNode stA.graph _ _ hpidA
                have hkp1 : nodesHasKey (addNode stA.graph
                    { id := prNodeId owner repo n, type := "pr", owner := owner,
                      repo := repo, number := n }).nodes (prNodeId owner repo n) = true :=
                  nodesHasKey_addNode_self stA.graph _
                have hg2 : edgeKeysOk (addEdge (addNode stA.graph
                    { id := prNodeId owner repo n, type := "pr", owner := owner,
                      repo := repo, number := n })
                    { fromId := pid, toId := prNodeId owner repo n,
                      type := "references" }) :=
                  edgeKeysOk_addEdge h1ok hpid1 hkp1
                have hcov2 : ∀ i ∈ l2i, nodesHasKey (addEdge (addNode stA.graph
                    { id := prNodeId owner repo n, type := "pr", owner := owner,
                      repo := repo, number := n })
                    { fromId := pid, toId := prNodeId owner repo n,
                      type := "references" }).nodes (issueNodeId owner repo i) = true := by
                  intro i hi
                  exact keysMono_addNode stA.graph _ _ (hcovA i hi)
                obtain ⟨h4, h5, h6, h7⟩ := ih _ _ _ h hg2 hpid1 hcov2
                refine ⟨h4, ?_, h6.trans hR, h7⟩
                exact keysMono_trans (keysMono_of_eq hN)
                  (keysMono_trans (keysMono_addNode stA.graph _) h5)
            · obtain ⟨h4, h5, h6, h7⟩ := ih _ _ _ h hokA hpidA hcovA
              exact ⟨h4, keysMono_trans (keysMono_of_eq hN) h5, h6.trans hR, h7⟩

/-- The node upgrade followed by the conditional truncation bump keeps the
invariant, node keys and the root id, and ensures the upgraded node key. -/
theorem upgradeTrunc_ok {g : RefGraph} (c : Bool) (node : GraphNode)
    (c2 : Prop) [Decidable c2] (hok : edgeKeysOk g)
    (hkey : c = false → nodesHasKey g.nodes node.id = true) :
    edgeKeysOk (if c2 then
        bumpLayer2RefsTrunc (if c = true then addNode g node else g)
      else (if c = true then addNode g node else g)) ∧
    keysMono g (if c2 then
        bumpLayer2RefsTrunc (if c = true then addNode g node else g)
      else (if c = true then addNode g node else g)) ∧
    (if c2 then
        bumpLayer2RefsTrunc (if c = true then addNode g node else g)
      else (if c = true then addNode g node else g)).rootId = g.rootId ∧
    nodesHasKey (if c2 then
        bumpLayer2RefsTrunc (if c = true then addNode g node else g)
      else (if c = true then addNode g node else g)).nodes node.id = true := by
  obtain ⟨h1, h2, h3, h4⟩ := upgrade_ite_ok c node hok hkey
  obtain ⟨hn, he, hr⟩ := ite_bump_fields (c := c2) bumpLayer2RefsTrunc
    (if c = true then addNode g node else g)
    (fun _ => rfl) (fun _ => rfl) (fun _ => rfl)
  refine ⟨edgeKeysOk_of_eq hn he h1,
    keysMono_trans h2 (keysMono_of_eq hn), hr.trans h3, ?_⟩
  rw [hn]
  exact h4

/-- The related-PR expansion keeps the invariant when every collected
layer-2 issue node key is present, never drops node keys, keeps the root
id, and leaves every collected layer-2 issue node key present. -/
theorem expandRelatedPRs_ok {gh : GhClient} {owner repo : String}
    {maxRefs : Nat} :
    ∀ (ns : List Nat) (st : BuildState) (l2i l2p : List Nat) {st1 : BuildState}
      {l2i1 l2p1 : List Nat},
    expandRelatedPRs gh owner repo maxRefs ns st l2i l2p =
      Except.ok (st1, l2i1, l2p1) →
    edgeKeysOk st.graph →
    (∀ i ∈ l2i, nodesHasKey st.graph.nodes (issueNodeId owner repo i) = true) →
    edgeKeysOk st1.graph ∧ keysMono st.graph st1.graph ∧
    st1.graph.rootId = st.graph.rootId ∧
    ∀ i ∈ l2i1, nodesHasKey st1.graph.nodes (issueNodeId owner repo i) = true := by
  intro ns
  induction ns with
  | nil =>
      intro st l2i l2p st1 l2i1 l2p1 h hok hcov
      simp only [expandRelatedPRs, Except.ok.injEq, Prod.mk.injEq] at h
      obtain ⟨h1, h2, h3⟩ := h
      subst h1
      subst h2
      exact ⟨hok, keysMono_refl _, rfl, hcov⟩
  | cons prNum rest ih =>
      intro st l2i l2p st1 l2i1 l2p1 h hok hcov
      simp only [expandRelatedPRs] at h
      cases hf : fetchPRWithComments gh st prNum with
      | error e => rw [hf] at h; exact absurd h (by simp)
      | ok res =>
          obtain ⟨⟨pr, comments⟩, stA⟩ := res
          rw [hf] at h
          dsimp only at h
          obtain ⟨hNA, hEA, hRA⟩ := fetchPRWithComments_fields hf
          have hokA : edgeKeysOk stA.graph := edgeKeysOk_of_eq hNA hEA hok
          have hkeyimp : (match lookupNode (prNodeId owner repo prNum) stA.graph.nodes with
              | none => true
              | some node => decide (node.title = none)) = false →
              nodesHasKey stA.graph.nodes
                (prNodeWithMeta (prNodeId owner repo prNum) owner repo prNum pr).id = true := by
            intro hc
            cases hlup : lookupNode (prNodeId owner repo prNum) stA.graph.nodes with
            | none => rw [hlup] at hc; exact absurd hc (by simp)
            | some node =>
                show (lookupNode (prNodeId owner repo prNum) stA.graph.nodes).isSome = true
                rw [hlup]
                rfl
          obtain ⟨hg2ok, hg2mono, hg2root, hg2pid⟩ := upgradeTrunc_ok
            (match lookupNode (prNodeId owner repo prNum) stA.graph.nodes with
              | none => true
              | some node => decide (node.title = none))
            (prNodeWithMeta (prNodeId owner repo prNum) owner repo prNum pr)
            (((extractReferencedNumbersFromPRAndComments pr (some comments) owner repo).take
                maxRefs).length <
              (extractReferencedNumbersFromPRAndComments pr (some comments) owner repo).length)
            hokA hkeyimp
          split at h
          · exact absurd h (by simp)
          · rename_i st2 l2i2 l2p2 hcl
            obtain ⟨hclok, hclmono, hclroot, hclcov⟩ :=
              classifyLayer2Refs_ok _ _ _ _ hcl hg2ok hg2pid
                (fun i hi => hg2mono _ (by rw [hNA]; exact hcov i hi))
            obtain ⟨h4, h5, h6, h7⟩ := ih _ _ _ h hclok hclcov
            refine ⟨h4, ?_, ?_, h7⟩
            · exact keysMono_trans (keysMono_of_eq hNA)
                (keysMono_trans hg2mono (keysMono_trans hclmono h5))
            · exact (h6.trans (hclroot.trans hg2root)).trans hRA

/-- The layer-2 issue expansion keeps the invariant when every listed
issue node key is present, never drops node keys, and keeps the root id. -/
theorem expandLayer2Issues_ok {gh : GhClient} {owner repo : String}
    {maxPrs : Nat} :
    ∀ (ns : List Nat) (st : BuildState) {st1 : BuildState},
    expandLayer2Issues gh owner repo maxPrs ns st = Except.ok st1 →
    edgeKeysOk st.graph →
    (∀ i ∈ ns, nodesHasKey st.graph.nodes (issueNodeId owner repo i) = true) →
    edgeKeysOk st1.graph ∧ keysMono st.graph st1.graph ∧
    st1.graph.rootId = st.graph.rootId := by
  intro ns
  induction ns with
  | nil =>
      intro st st1 h hok hkeys
      simp only [expandLayer2Issues, Except.ok.injEq] at h
      subst h
      exact ⟨hok, keysMono_refl _, rfl⟩
  | cons i rest ih =>
      intro st st1 h hok hkeys
      simp only [expandLayer2Issues] at h
      cases hti : addIssueTimelineEdges gh owner repo st i maxPrs (fun k => k) with
      | error e => rw [hti] at h; exact absurd h (by simp)
      | ok res =>
          obtain ⟨⟨closing, cross⟩, stA⟩ := res
          rw [hti] at h
          dsimp only at h
          obtain ⟨hAok, hAmono, hAroot⟩ :=
            addIssueTimelineEdges_ok hti hok (hkeys i (by simp))
          obtain ⟨h4, h5, h6⟩ := ih _ h hAok
            (fun j hj => hAmono _ (hkeys j (by simp [hj])))
          exact ⟨h4, keysMono_trans hAmono h5, h6.trans hAroot⟩

/-- The final stub loop keeps the invariant, node keys and the root id. -/
theorem addLayer2PrStubs_ok (owner repo : String) :
    ∀ (ns : List Nat) (g : RefGraph), edgeKeysOk g →
    edgeKeysOk (addLayer2PrStubs owner repo ns g) ∧
    keysMono g (addLayer2PrStubs owner repo ns g) ∧
    (addLayer2PrStubs owner repo ns g).rootId = g.rootId := by
  intro ns
  induction ns with
  | nil => intro g h; exact ⟨h, keysMono_refl g, rfl⟩
  | cons prNum rest ih =>
      intro g h
      simp only [addLayer2PrStubs]
      by_cases hp : nodesHasKey g.nodes (prNodeId owner repo prNum) = true
      · rw [if_pos hp]
        exact ih g h
      · rw [if_neg hp]
        obtain ⟨h4, h5, h6⟩ := ih _ (edgeKeysOk_addNode _ h)
        exact ⟨h4, keysMono_trans (keysMono_addNode g _) h5, h6⟩

/-- The layer stages keep the invariant and the root key, and keep the
root id, given a closed starting graph with the root key present. -/
theorem buildLayers_ok {gh : GhClient} {owner repo rootId : String}
    {mC mR mC2 : Nat} {layer1 : List Nat} {st3 : BuildState} {g : RefGraph}
    (h : buildLayers gh owner repo rootId mC mR mC2 layer1 st3 = Except.ok g)
    (hok : edgeKeysOk st3.graph)
    (hroot : nodesHasKey st3.graph.nodes rootId = true) :
    edgeKeysOk g ∧ nodesHasKey g.nodes rootId = true ∧
    g.rootId = st3.graph.rootId := by
  unfold buildLayers at h
  cases hcl : classifyLayer1 gh layer1 st3 [] [] with
  | error e => rw [hcl] at h; exact absurd h (by simp)
  | ok res =>
      obtain ⟨st4, is1, ps1⟩ := res
      rw [hcl] at h
      dsimp only at h
      obtain ⟨hN4, hE4, hR4⟩ := classifyLayer1_fields _ _ _ _ hcl
      have hok4 : edgeKeysOk st4.graph := edgeKeysOk_of_eq hN4 hE4 hok
      have hroot4 : nodesHasKey st4.graph.nodes rootId = true := by
        rw [hN4]; exact hroot
      obtain ⟨h5ok, h5mono, h5root, h5cov⟩ :=
        addLayer1IssueNodes_ok owner repo rootId is1 st4.graph hok4 hroot4
      obtain ⟨h6ok, h6mono, h6root⟩ :=
        addLayer1PrNodes_ok owner repo rootId ps1 _ h5ok (h5mono _ hroot4)
      split at h
      · exact absurd h (by simp)
      · rename_i st5 rel hx1
        obtain ⟨hx1ok, hx1mono, hx1root⟩ := expandLayer1Issues_ok _ _ _ hx1 h6ok
          (fun i hi => h6mono _ (h5cov i hi))
        split at h
        · exact absurd h (by simp)
        · rename_i st6 l2i l2p hx2
          obtain ⟨hx2ok, hx2mono, hx2root, hx2cov⟩ :=
            expandRelatedPRs_ok _ _ _ _ hx2 hx1ok (fun i hi => by simp at hi)
          split at h
          · exact absurd h (by simp)
          · rename_i st7 hx3
            obtain ⟨hx3ok, hx3mono, hx3root⟩ :=
              expandLayer2Issues_ok _ _ hx3 hx2ok hx2cov
            simp only [Except.ok.injEq] at h
            subst h
            obtain ⟨hSok, hSmono, hSroot⟩ :=
              addLayer2PrStubs_ok owner repo l2p st7.graph hx3ok
            refine ⟨hSok, ?_, ?_⟩
            · exact hSmono _ (hx3mono _ (hx2mono _ (hx1mono _
                (h6mono _ (h5mono _ hroot4)))))
            · exact hSroot.trans (hx3root.trans (hx2root.trans (hx1root.trans
                (h6root.trans (h5root.trans hR4)))))

/-- C9: when buildReferenceGraph returns a graph, every edge has both its
from key and its to key present as entries in graph.nodes, and
graph.rootId is also a present key. -/
theorem c9_edges_closed (gh : GhClient) (owner repo : String) (prNumber : Nat)
    (budgets : Budgets) (g : RefGraph)
    (h : buildReferenceGraph gh owner repo prNumber budgets = Except.ok g) :
    edgesClosedB g = true ∧ nodesHasKey g.nodes g.rootId = true := by
  simp only [buildReferenceGraph] at h
  split at h
  · exact absurd h (by simp)
  · rename_i rootPr rootComments st1 hf
    obtain ⟨hN1, hE1, hR1⟩ := fetchPRWithComments_fields hf
    have hok1 : edgeKeysOk st1.graph :=
      edgeKeysOk_of_eq hN1 hE1 (fun e he => absurd he (List.not_mem_nil e))
    have hok2 : edgeKeysOk (addNode st1.graph
        (prNodeWithMeta (prNodeId owner repo prNumber) owner repo prNumber rootPr)) :=
      edgeKeysOk_addNode _ hok1
    have hkey2 : nodesHasKey (addNode st1.graph
        (prNodeWithMeta (prNodeId owner repo prNumber) owner repo prNumber rootPr)).nodes
        (prNodeId owner repo prNumber) = true :=
      nodesHasKey_addNode_self _ _
    have hrfin : st1.graph.rootId = prNodeId owner repo prNumber := hR1
    split at h
    · obtain ⟨hgok, hgkey, hgroot⟩ := buildLayers_ok h hok2 hkey2
      refine ⟨edgesClosedB_eq_true.mpr hgok, ?_⟩
      have hgr : g.rootId = prNodeId owner repo prNumber := hgroot.trans hrfin
      rw [hgr]
      exact hgkey
    · obtain ⟨hgok, hgkey, hgroot⟩ := buildLayers_ok h hok2 hkey2
      refine ⟨edgesClosedB_eq_true.mpr hgok, ?_⟩
      have hgr : g.rootId = prNodeId owner repo prNumber := hgroot.trans hrfin
      rw [hgr]
      exact hgkey

set_option maxRecDepth 8000 in
/-- C9 witness: the invariant evaluated on the graph built over the C9
fixture. -/
theorem c9_witness :
    edgesClosedB c9Graph = true ∧ nodesHasKey c9Graph.nodes c9Graph.rootId = true :=
  c9_edges_closed ghC9 "octo" "hello" 10 {} c9Graph (by rfl)

end PrSheriff
